import Mathlib

/-!
# Verification of the CSV-to-JSON parser (`src/utils/csvParser.js`)

Shallow embedding of the `CSVParser` class: `parseLine`, `createNestedObject`,
`mergeDeep`, the per-row record materializer shared by `parse()` and
`parseStream()`, the streaming pipeline `parseStream()` (as a sequential
interpreter over a list of input lines that records an event trace), and the
whole-file loader `parse()`.

Modelling conventions:
* A JS value reachable in this program is one of `null`, a number, a string,
  a plain object, or an array.  Objects and arrays are represented by ordered
  association lists of (key, value) pairs — JS string-keyed insertion order.
  Booleans, `undefined`-valued properties, and `NaN` never occur as stored
  values in this program and are not represented.
* JS numbers are idealized as exact rationals (plus the two infinities for
  the `Infinity` literals accepted by `Number(...)`); the claims under
  verification never depend on IEEE-754 rounding.
* The class body runs in strict mode, so a property write on a primitive
  (string/number) or on `null` throws a `TypeError`; fallible computations
  are embedded in `Except String`.
* I/O is abstracted: a file is a list of its lines, and the `onBatch`
  consumer is a pure function `List JsVal → Except E Unit`.
-/

namespace CsvParser

/-! ## String primitives

`String.prototype.trim` and `String.prototype.split('.')`, implemented by
structural recursion over the character list (so that concrete runs reduce
inside the kernel).  JS `trim` removes Unicode WhiteSpace and
LineTerminator characters; the ASCII ones are modelled, which is exhaustive
for this repository's data. -/

/-- ASCII whitespace as removed by JS `trim`: space, tab, line feed,
carriage return, vertical tab, form feed. -/
def jsIsWhitespaceChar (c : Char) : Bool :=
  c = ' ' || c = '\t' || c = '\n' || c = '\r' || c.toNat = 11 || c.toNat = 12

/-- `trim` on a character list: drop whitespace from both ends. -/
def jsTrimList (cs : List Char) : List Char :=
  ((cs.dropWhile jsIsWhitespaceChar).reverse.dropWhile jsIsWhitespaceChar).reverse

/-- JS `s.trim()`. -/
def jsTrim (s : String) : String :=
  String.mk (jsTrimList s.data)

/-- JS `s.split('.')` on a character list: always at least one (possibly
empty) segment; `"a..b"` gives `["a", "", "b"]`. -/
def splitDot : List Char → List (List Char)
  | [] => [[]]
  | c :: rest =>
      match splitDot rest with
      | seg :: segs => if c = '.' then [] :: seg :: segs else (c :: seg) :: segs
      | [] => [[c]]

/-- JS number, idealized: exact rationals plus the infinities produced by
`Number("Infinity")` / `Number("-Infinity")`. -/
inductive JsNum where
  | finite (q : ℚ)
  | inf
  | negInf
deriving DecidableEq, Repr

/-- The JS values reachable in `csvParser.js`: `null`, numbers, strings,
plain objects and arrays, the latter two as ordered key/value field lists
(an array's elements live under the keys `"0"`, `"1"`, …; the distinction
that matters to `mergeDeep` is only the `Array.isArray` test). -/
inductive JsVal where
  | vnull
  | vnum (n : JsNum)
  | vstr (s : String)
  | vobj (fields : List (String × JsVal))
  | varr (fields : List (String × JsVal))

namespace JsVal

/-- JS truthiness of the values in our universe (`NaN` and booleans never
occur): `null`, `0` and `""` are falsy, everything else truthy. -/
def truthy : JsVal → Bool
  | vnull => false
  | vnum (.finite q) => q ≠ 0
  | vnum _ => true
  | vstr s => s ≠ ""
  | vobj _ => true
  | varr _ => true

/-- `typeof v === 'object'` (true for `null`, plain objects and arrays). -/
def typeofObject : JsVal → Bool
  | vnull => true
  | vobj _ => true
  | varr _ => true
  | _ => false

/-- `Array.isArray(v)`. -/
def isArrayVal : JsVal → Bool
  | varr _ => true
  | _ => false

end JsVal

/-- First binding of a key in an ordered field list (`obj[key]`,
`undefined` as `none`). -/
def lookupField (fs : List (String × JsVal)) (k : String) : Option JsVal :=
  ((fs.find? (fun p => p.1 = k)).map Prod.snd)

/-- `obj[key] = v` on an ordered field list: replace the first binding of
`k` in place, or append a new binding. -/
def setField : List (String × JsVal) → String → JsVal → List (String × JsVal)
  | [], k, v => [(k, v)]
  | (k', v') :: rest, k, v =>
      if k' = k then (k', v) :: rest else (k', v') :: setField rest k v

/-- Reading `target[key]`.  Reading a property of `null` throws; reading a
property of a string or number yields `undefined` (`none`) — the string
index/`length` properties are not modelled, as no key produced by this
program is a numeric index or `length` in a position where it matters. -/
def readProp : JsVal → String → Except String (Option JsVal)
  | .vnull, _ => .error "TypeError: Cannot read properties of null"
  | .vobj fs, k => .ok (lookupField fs k)
  | .varr fs, k => .ok (lookupField fs k)
  | .vstr _, _ => .ok none
  | .vnum _, _ => .ok none

/-- Writing `target[key] = v`.  In strict mode (a class body) writing a
property on a primitive or on `null` throws a `TypeError`; objects and
arrays accept the write. -/
def writeProp : JsVal → String → JsVal → Except String JsVal
  | .vobj fs, k, v => .ok (.vobj (setField fs k v))
  | .varr fs, k, v => .ok (.varr (setField fs k v))
  | _, _, _ => .error "TypeError: Cannot create property on primitive or null"

/-- The guard of `mergeDeep`'s recursive branch:
`source[key] && typeof source[key] === 'object' && !Array.isArray(source[key])`. -/
def mergeGuard (v : JsVal) : Bool :=
  v.truthy && v.typeofObject && !v.isArrayVal

/-- In our value universe the guard holds exactly for plain objects. -/
theorem mergeGuard_iff (v : JsVal) : mergeGuard v = true ↔ ∃ fs, v = .vobj fs := by
  cases v <;> simp [mergeGuard, JsVal.truthy, JsVal.typeofObject, JsVal.isArrayVal]

mutual

/--
`CSVParser.mergeDeep(target, source)`, with the source object given by its
field list (the callers always pass a plain object, and the `for...in` loop
iterates its keys in order).  Each iteration of the loop is `mergeKey`;
mutation is modelled by threading the updated target through the loop.
-/
def mergeInto (target : JsVal) : List (String × JsVal) → Except String JsVal
  | [] => .ok target
  | (k, sv) :: rest => do
      let target1 ← mergeKey target k sv
      mergeInto target1 rest

/--
One iteration of `mergeDeep`'s loop, for source key `k` with source value
`sv`.  If `sv` passes `mergeGuard` (in this universe: is a plain object,
see `mergeGuard_iff`), run `if (!target[key]) target[key] = {}` and then
the in-place recursive merge `this.mergeDeep(target[key], source[key])`;
otherwise the plain assignment `target[key] = source[key]`.  Strict-mode
`TypeError`s surface as `Except.error`.
-/
def mergeKey (target : JsVal) (k : String) : JsVal → Except String JsVal
  | .vobj sf => do
      -- recursive branch: `mergeGuard (.vobj sf) = true`
      let tk0 ← readProp target k
      let target1 ←
        if !(match tk0 with | some v => v.truthy | none => false) then
          writeProp target k (.vobj [])
        else
          .ok target
      let tk1 ← readProp target1 k
      let inner ← mergeInto (tk1.getD .vnull) sf
      writeProp target1 k inner
  | sv => do
      -- `mergeGuard sv = false` for every non-object value: plain assignment
      writeProp target k sv

end

/-! ## The CSV line splitter `parseLine` -/

/-- One step of `parseLine`'s scan: state is (fields pushed so far, current
accumulator, `insideQuotes` flag).  A `"` toggles the flag and is consumed;
a `,` outside quotes pushes `current.trim()` and resets the accumulator;
any other character is appended to the accumulator. -/
def parseLineStep (st : List String × List Char × Bool) (c : Char) :
    List String × List Char × Bool :=
  let (values, current, insideQuotes) := st
  if c = '"' then
    (values, current, !insideQuotes)
  else if c = ',' ∧ insideQuotes = false then
    (values ++ [String.mk (jsTrimList current)], [], insideQuotes)
  else
    (values, current ++ [c], insideQuotes)

/-- `CSVParser.parseLine(line)`: scan the characters left to right with
`parseLineStep`, then push the final accumulator (`values.push(current.trim())`,
even if it is empty). -/
def parseLine (line : String) : List String :=
  let fin := line.data.foldl parseLineStep ([], [], false)
  fin.1 ++ [String.mk (jsTrimList fin.2.1)]

/-! ## `createNestedObject` -/

/-- The chain of singleton objects built by `createNestedObject`'s loop from
an already-split key path: each level trims its key segment, the last
segment maps to the value.  (`String.splitOn` never returns `[]`, so the
`[]` case is unreachable.) -/
def nestedChain (value : JsVal) : List String → List (String × JsVal)
  | [] => []
  | [k] => [(jsTrim k, value)]
  | k :: rest => [(jsTrim k, .vobj (nestedChain value rest))]

/-- `CSVParser.createNestedObject(key, value)`: split `key` on `.` and build
the nested singleton chain, e.g. `"name.firstName"` with `v` gives
`{ name: { firstName: v } }`.  The returned object is represented by its
field list. -/
def createNestedObject (key : String) (value : JsVal) : List (String × JsVal) :=
  nestedChain value ((splitDot key.data).map String.mk)

/-! ## Numeric coercion: `!isNaN(value) && value !== ''` and `Number(value)`

`Number(string)` follows the ECMAScript StringNumericLiteral grammar:
an optional sign over (`Infinity` | decimal digits with optional decimal
point, fractional digits and exponent part), or an unsigned hex / octal /
binary literal.  JS numbers are idealized as exact rationals; the
surrounding whitespace trimming done by `Number` itself is omitted because
every caller in `csvParser.js` passes an already-`trim()`ed string. -/

/-- Decimal digit test (ECMAScript `DecimalDigit`). -/
def isDigitChar (c : Char) : Bool := c.isDigit

def isHexDigitChar (c : Char) : Bool :=
  c.isDigit || ('a' ≤ c && c ≤ 'f') || ('A' ≤ c && c ≤ 'F')

def isOctDigitChar (c : Char) : Bool := '0' ≤ c && c ≤ '7'

def isBinDigitChar (c : Char) : Bool := c = '0' || c = '1'

/-- Numeric value of one digit in any of the radices above. -/
def digitToNat (c : Char) : Nat :=
  if c.isDigit then c.toNat - 48
  else if 'a' ≤ c && c ≤ 'f' then c.toNat - 87
  else if 'A' ≤ c && c ≤ 'F' then c.toNat - 55
  else 0

/-- Value of a digit string in the given base. -/
def radixVal (base : Nat) (cs : List Char) : Nat :=
  cs.foldl (fun a c => a * base + digitToNat c) 0

/-- Parse an optional ECMAScript `ExponentPart` occupying the whole rest of
the input: empty means exponent 0; otherwise `e`/`E`, an optional sign, and
at least one digit.  Returns (negative?, magnitude). -/
def parseExpPart : List Char → Option (Bool × Nat)
  | [] => some (false, 0)
  | c :: rest =>
      if c = 'e' ∨ c = 'E' then
        match rest with
        | '+' :: ds => if ds ≠ [] ∧ ds.all isDigitChar then some (false, radixVal 10 ds) else none
        | '-' :: ds => if ds ≠ [] ∧ ds.all isDigitChar then some (true, radixVal 10 ds) else none
        | ds => if ds ≠ [] ∧ ds.all isDigitChar then some (false, radixVal 10 ds) else none
      else none

/-- Exact rational value of a decimal literal with integer digits `ip`,
fractional digits `fp` and exponent `e`:
`(ip.fp) · 10^±e = (digits of ip++fp) · 10^±e / 10^(length fp)`,
assembled with a single `mkRat` so that the value reduces in the kernel. -/
def decValue (ip fp : List Char) : Bool × Nat → ℚ
  | (false, k) => mkRat ((radixVal 10 (ip ++ fp) : Nat) * 10 ^ k) (10 ^ fp.length)
  | (true, k) => mkRat (radixVal 10 (ip ++ fp) : Nat) (10 ^ fp.length * 10 ^ k)

/-- Parse an unsigned ECMAScript decimal literal (digits with optional
decimal point, fractional digits and exponent; at least one digit on some
side of the point). -/
def parseDecMantissa (cs : List Char) : Option ℚ :=
  let ip := cs.takeWhile isDigitChar
  let r1 := cs.dropWhile isDigitChar
  match r1 with
  | '.' :: r2 =>
      let fp := r2.takeWhile isDigitChar
      let r3 := r2.dropWhile isDigitChar
      if ip = [] ∧ fp = [] then none
      else (parseExpPart r3).map (decValue ip fp)
  | r3 =>
      if ip = [] then none
      else (parseExpPart r3).map (decValue ip [])

/-- Parse a non-empty all-`digitOk` string in the given base. -/
def parseRadix (base : Nat) (digitOk : Char → Bool) (cs : List Char) : Option ℚ :=
  if cs ≠ [] ∧ cs.all digitOk then some (mkRat (radixVal base cs : Nat) 1) else none

/-- Parse an unsigned ECMAScript StrNumericLiteral: a hex / octal / binary
literal, the literal `Infinity`, or an unsigned decimal literal. -/
def parseUnsigned (cs : List Char) : Option JsNum :=
  match cs with
  | '0' :: 'x' :: rest => (parseRadix 16 isHexDigitChar rest).map .finite
  | '0' :: 'X' :: rest => (parseRadix 16 isHexDigitChar rest).map .finite
  | '0' :: 'o' :: rest => (parseRadix 8 isOctDigitChar rest).map .finite
  | '0' :: 'O' :: rest => (parseRadix 8 isOctDigitChar rest).map .finite
  | '0' :: 'b' :: rest => (parseRadix 2 isBinDigitChar rest).map .finite
  | '0' :: 'B' :: rest => (parseRadix 2 isBinDigitChar rest).map .finite
  | _ =>
      if cs = "Infinity".data then some .inf
      else (parseDecMantissa cs).map .finite

/-- `Number` on a character list: the empty string converts to `0`; an
explicit sign is only allowed over `Infinity` or a decimal literal (signed
hex/octal/binary is `NaN`); anything unsigned goes to `parseUnsigned`. -/
def jsStringToNumberAux : List Char → Option JsNum
  | [] => some (.finite 0)
  | '+' :: rest =>
      if rest = "Infinity".data then some .inf
      else (parseDecMantissa rest).map .finite
  | '-' :: rest =>
      if rest = "Infinity".data then some .negInf
      else (parseDecMantissa rest).map (fun q => .finite (-q))
  | cs => parseUnsigned cs

/-- `Number(s)` for an (already trimmed) string `s`, as `some` of its value,
or `none` when the result is `NaN`. -/
def jsStringToNumber (s : String) : Option JsNum :=
  jsStringToNumberAux s.data

/-- The row materializer's value conversion,
`if (!isNaN(value) && value !== '') value = Number(value);`
(`isNaN(value)` coerces with `Number` and tests for `NaN`). -/
def convertValue (value : String) : JsVal :=
  if (jsStringToNumber value).isSome ∧ value ≠ "" then
    .vnum ((jsStringToNumber value).getD (.finite 0))
  else
    .vstr value

/-! ## The row materializer (the inner `for (let j = 0; ...)` loop, textually
identical in `parse()` and `parseStream()`) -/

/-- One iteration of the row loop for a (header, value) column pair:
`const header = headers[j].trim(); let value = values[j].trim();` numeric
coercion, `createNestedObject`, and `record = this.mergeDeep(record, nestedObj)`. -/
def buildField (record : JsVal) (hv : String × String) : Except String JsVal :=
  mergeInto record (createNestedObject (jsTrim hv.1) (convertValue (jsTrim hv.2)))

/-- Materialize one row: fold `buildField` over the header/value columns
starting from `let record = {}`.  Both pipelines call this only after
checking `values.length === headers.length`. -/
def buildRecord (headers values : List String) : Except String JsVal :=
  (headers.zip values).foldlM buildField (.vobj [])

/-! ## The streaming pipeline `parseStream`

Modelled as a sequential interpreter over the list of input lines,
producing the trace of observable events (each line handed to the `'line'`
listener, each column-count warning, each `onBatch` invocation) and the
final promise outcome (`.ok totalRecords` for `resolve`, `.error e` for
`reject`).  The consumer is a pure function `List JsVal → Except E Unit`.
File-level `'error'` events are outside the model (the input is already a
list of lines). -/

/-- Observable events of a `parseStream` run. -/
inductive Event where
  | readLine (line : String)
  | warnMismatch (lineNumber : Nat)
  | callBatch (batch : List JsVal)

/-- The batches handed to the consumer, in order. -/
def batchesOf (events : List Event) : List (List JsVal) :=
  events.filterMap (fun ev => match ev with | .callBatch b => some b | _ => none)

/--
The `'line'` handler loop of `parseStream`, plus the `'close'` handler at
end of input.  State: remaining lines, `headers` (`none` = still `null`),
`batch`, `lineNumber`, `totalRecords`.

Per line: `lineNumber++`; blank lines return early; if `lineNumber === 1`
the line becomes `headers`; otherwise the try-block runs: `parseLine`, the
column-count check (a `console.warn` and skip on mismatch — when `headers`
is still `null` here, `headers.length` throws a `TypeError` that the
`catch` swallows, dropping the line), the row materializer (whose
exceptions the same `catch` swallows), `batch.push(record)`,
`totalRecords++`, and the flush `if (batch.length >= batchSize)`.

On a successful flush `batch = []` and reading resumes.  On a failed flush
the code runs `rl.close(); reject(error); return` — and `rl.close()` fires
the `'close'` listener, which finds the *uncleared* `batch` non-empty and
awaits `onBatch(batch)` once more; that second call's outcome is discarded
because the promise is already settled by `reject(error)`.  The model
therefore records a second `callBatch` event with the same batch and
returns the original error.

At end of input the `'close'` handler flushes a non-empty remaining batch
(rejecting with the consumer's error if it fails) and resolves with
`totalRecords`.
-/
def goStream {E : Type} (batchSize : Nat) (onBatch : List JsVal → Except E Unit) :
    List String → Option (List String) → List JsVal → Nat → Nat → List Event × Except E Nat
  | [], _, batch, _, tot =>
      if batch.isEmpty then
        ([], .ok tot)
      else
        match onBatch batch with
        | .ok _ => ([.callBatch batch], .ok tot)
        | .error e => ([.callBatch batch], .error e)
  | line :: rest, hso, batch, ln, tot =>
      let ln1 := ln + 1
      if jsTrim line = "" then
        -- skip empty lines (but `lineNumber` was already incremented)
        let r := goStream batchSize onBatch rest hso batch ln1 tot
        (.readLine line :: r.1, r.2)
      else if ln1 = 1 then
        -- first line is headers
        let r := goStream batchSize onBatch rest (some (parseLine line)) batch ln1 tot
        (.readLine line :: r.1, r.2)
      else
        match hso with
        | none =>
            -- `headers` is still null: `headers.length` throws, the catch
            -- logs the error and the line is dropped
            let r := goStream batchSize onBatch rest hso batch ln1 tot
            (.readLine line :: r.1, r.2)
        | some headers =>
            let values := parseLine line
            if values.length ≠ headers.length then
              let r := goStream batchSize onBatch rest hso batch ln1 tot
              (.readLine line :: .warnMismatch ln1 :: r.1, r.2)
            else
              match buildRecord headers values with
              | .error _ =>
                  -- row-materialization error, swallowed by the catch
                  let r := goStream batchSize onBatch rest hso batch ln1 tot
                  (.readLine line :: r.1, r.2)
              | .ok record =>
                  let batch1 := batch ++ [record]
                  let tot1 := tot + 1
                  if batch1.length ≥ batchSize then
                    match onBatch batch1 with
                    | .ok _ =>
                        let r := goStream batchSize onBatch rest hso [] ln1 tot1
                        (.readLine line :: .callBatch batch1 :: r.1, r.2)
                    | .error e =>
                        -- rl.close() fires the 'close' handler on the
                        -- uncleared batch, then reject(error) settles the
                        -- promise with the original error
                        ([.readLine line, .callBatch batch1, .callBatch batch1], .error e)
                  else
                    let r := goStream batchSize onBatch rest hso batch1 ln1 tot1
                    (.readLine line :: r.1, r.2)

/-- `CSVParser.parseStream(batchSize, onBatch)` on a file with the given
lines: initial state `headers = null`, `batch = []`, `lineNumber = 0`,
`totalRecords = 0`. -/
def parseStreamRun {E : Type} (batchSize : Nat) (onBatch : List JsVal → Except E Unit)
    (lines : List String) : List Event × Except E Nat :=
  goStream batchSize onBatch lines none [] 0 0

/-! ## The whole-file loader `parse()`

`parse()` reads the file, splits on `'\n'`, filters out blank lines, takes
the first remaining line as headers, and materializes each further line,
skipping (with a `console.warn`) rows whose column count mismatches.  Any
exception thrown while materializing a row propagates out of `parse()`
(its `try` wraps the whole loop).  The result carries the records together
with the list of warned line numbers (the `console.warn` output, which
uses the index in the *filtered* list plus one). -/

/-- The data-row loop of `parse()`: `i` is the 0-based index of the current
row among the data lines, so the warning number `i + 2` matches the code's
`Skipping line ${i + 1}` for its 1-based loop counter. -/
def parseRows (headers : List String) : List String → Nat → Except String (List JsVal × List Nat)
  | [], _ => .ok ([], [])
  | line :: rest, i =>
      let values := parseLine line
      if values.length ≠ headers.length then
        (parseRows headers rest (i + 1)).map (fun p => (p.1, (i + 2) :: p.2))
      else
        match buildRecord headers values with
        | .error e => .error e
        | .ok r => (parseRows headers rest (i + 1)).map (fun p => (r :: p.1, p.2))

/-- `CSVParser.parse()` on a file with the given lines. -/
def parseFile (lines : List String) : Except String (List JsVal × List Nat) :=
  match lines.filter (fun l => jsTrim l ≠ "") with
  | [] => .error "CSV file is empty"
  | headerLine :: dataLines => parseRows (parseLine headerLine) dataLines 0

/-! ## Spec-side definitions

Definitions transcribed from the specification's wording, used to compare
the code's behaviour against the spec where the two might differ. -/

/-- Spec-side field counter for `parseLine`, from the claim's wording:
scanning left to right toggling an inside-quotes flag on each `"`, a `,`
seen while the flag is false ends a field; the number of fields is one more
than the number of such commas. -/
def countUnquotedCommas : List Char → Bool → Nat
  | [], _ => 0
  | c :: rest, inside =>
      if c = '"' then countUnquotedCommas rest (!inside)
      else if c = ',' ∧ inside = false then countUnquotedCommas rest inside + 1
      else countUnquotedCommas rest inside

/-- Body of the claim's simple numeric grammar, after the optional sign:
digits, then optionally a decimal point and fractional digits — nothing
else (no exponent, no hex/octal/binary, no `Infinity`, no bare `.5`/`5.`). -/
def claimBody (cs : List Char) : Bool :=
  match cs.dropWhile isDigitChar with
  | [] => !(cs.takeWhile isDigitChar).isEmpty
  | '.' :: fs => !(cs.takeWhile isDigitChar).isEmpty && !fs.isEmpty && fs.all isDigitChar
  | _ => false

/-- The claim's simple grammar: an optional sign over `claimBody`. -/
def claimGrammarAux : List Char → Bool
  | '+' :: r => claimBody r
  | '-' :: r => claimBody r
  | cs => claimBody cs

/-- Spec-side numeric-literal grammar from the claim's wording: optional
sign, digits, optional decimal point and fractional digits. -/
def claimNumericGrammar (s : String) : Bool :=
  claimGrammarAux s.data

/-! ## Key sets and shapes of records -/

/-- Top-level key list of a field list. -/
def fieldKeys (fs : List (String × JsVal)) : List String :=
  fs.map Prod.fst

/-- The nesting skeleton of a value: containers keep their keyed structure,
everything else (scalars; also arrays, which never occur inside records
built by this parser) is a leaf. -/
inductive Shape where
  | leaf
  | node (fields : List (String × Shape))

mutual

/-- Shape of a value. -/
def shapeOfVal : JsVal → Shape
  | .vobj fs => .node (shapeOfFields fs)
  | _ => .leaf

/-- Shapes of a field list, keeping keys and order. -/
def shapeOfFields : List (String × JsVal) → List (String × Shape)
  | [] => []
  | (k, v) :: rest => (k, shapeOfVal v) :: shapeOfFields rest

end

/-- Scalar leaves as produced by the row materializer's value conversion:
a string or a number. -/
def isScalarLeaf (v : JsVal) : Prop :=
  (∃ s, v = .vstr s) ∨ (∃ n, v = .vnum n)

mutual

/-- No array occurs anywhere inside the value (true of every record this
parser builds, since the converted cell values are strings or numbers and
the only containers created are plain objects). -/
def arrFreeVal : JsVal → Bool
  | .varr _ => false
  | .vobj fs => arrFreeFields fs
  | _ => true

/-- `arrFreeVal` over a field list. -/
def arrFreeFields : List (String × JsVal) → Bool
  | [] => true
  | (_, v) :: rest => arrFreeVal v && arrFreeFields rest

end

/-- Two merge sources are the same dotted path with (possibly different)
scalar leaves — the relation between the `createNestedObject` outputs of
one header across two rows. -/
inductive SamePath : List (String × JsVal) → List (String × JsVal) → Prop
  | leaf (k : String) (x y : JsVal) :
      isScalarLeaf x → isScalarLeaf y → SamePath [(k, x)] [(k, y)]
  | node (k : String) (sf sg : List (String × JsVal)) :
      SamePath sf sg → SamePath [(k, .vobj sf)] [(k, .vobj sg)]

/-! ## Concrete demonstration inputs -/

/-- A consumer that always succeeds. -/
def alwaysOk : List JsVal → Except Unit Unit :=
  fun _ => .ok ()

/-- A consumer that always fails. -/
def alwaysFail : List JsVal → Except String Unit :=
  fun _ => .error "boom"

/-- A header line and five valid data rows. -/
def demoLines : List String :=
  ["id,name", "1,Alice", "2,Bob", "3,Carol", "4,Dave", "5,Eve"]

/-- The record materialized from one demo row. -/
def demoRec (n : ℚ) (s : String) : JsVal :=
  .vobj [("id", .vnum (.finite n)), ("name", .vstr s)]

/-! # Helper lemmas -/

@[simp] theorem exceptBind_ok {ε α β : Type} (a : α) (f : α → Except ε β) :
    (Except.ok a >>= f) = f a := rfl

@[simp] theorem exceptBind_error {ε α β : Type} (e : ε) (f : α → Except ε β) :
    ((Except.error e : Except ε α) >>= f) = Except.error e := rfl

@[simp] theorem exceptMap_ok {ε α β : Type} (a : α) (f : α → β) :
    (Except.ok a : Except ε α).map f = Except.ok (f a) := rfl

@[simp] theorem exceptMap_error {ε α β : Type} (e : ε) (f : α → β) :
    (Except.error e : Except ε α).map f = Except.error e := rfl

/-- Membership survives `dropWhile`. -/
theorem mem_of_mem_dropWhile {p : Char → Bool} :
    ∀ {l : List Char} {c : Char}, c ∈ l.dropWhile p → c ∈ l := by
  intro l
  induction l with
  | nil => intro c h; simp at h
  | cons a rest ih =>
      intro c h
      rw [List.dropWhile_cons] at h
      by_cases hp : p a = true
      · simp only [hp, if_true] at h
        exact List.mem_cons_of_mem _ (ih h)
      · simp only [hp, if_false] at h
        exact h

/-- Membership survives JS trimming. -/
theorem mem_of_mem_jsTrimList {cs : List Char} {c : Char}
    (h : c ∈ jsTrimList cs) : c ∈ cs := by
  unfold jsTrimList at h
  rw [List.mem_reverse] at h
  have h1 := mem_of_mem_dropWhile h
  rw [List.mem_reverse] at h1
  exact mem_of_mem_dropWhile h1

/-- The pushed-field count of `parseLine`'s scan equals the number of
unquoted commas. -/
theorem parseLine_foldl_length (cs : List Char) :
    ∀ (values : List String) (current : List Char) (inside : Bool),
      ((cs.foldl parseLineStep (values, current, inside)).1).length
        = values.length + countUnquotedCommas cs inside := by
  induction cs with
  | nil => intro values current inside; simp [countUnquotedCommas]
  | cons c rest ih =>
      intro values current inside
      by_cases h1 : c = '"'
      · simp [parseLineStep, countUnquotedCommas, h1, ih]
      · by_cases h2 : c = ',' ∧ inside = false
        · simp [parseLineStep, countUnquotedCommas, h1, h2, ih]
          omega
        · simp [parseLineStep, countUnquotedCommas, h1, h2, ih]

/-- No `"` survives into the scan state: quotes only toggle the flag. -/
theorem parseLine_foldl_quote_free (cs : List Char) :
    ∀ (values : List String) (current : List Char) (inside : Bool),
      (∀ f ∈ values, '"' ∉ f.data) → '"' ∉ current →
      (∀ f ∈ (cs.foldl parseLineStep (values, current, inside)).1, '"' ∉ f.data)
      ∧ '"' ∉ (cs.foldl parseLineStep (values, current, inside)).2.1 := by
  induction cs with
  | nil => intro values current inside hv hc; exact ⟨hv, hc⟩
  | cons c rest ih =>
      intro values current inside hv hc
      by_cases h1 : c = '"'
      · simp only [List.foldl_cons, parseLineStep, h1, if_true]
        exact ih values current (!inside) hv hc
      · by_cases h2 : c = ',' ∧ inside = false
        · simp only [List.foldl_cons, parseLineStep, h1, if_false, h2, if_true]
          refine ih _ _ _ ?_ (by simp)
          intro f hf
          rcases List.mem_append.1 hf with h | h
          · exact hv f h
          · simp only [List.mem_singleton] at h
            subst h
            intro hq
            exact hc (mem_of_mem_jsTrimList hq)
        · simp only [List.foldl_cons, parseLineStep, h1, if_false, h2, if_true]
          refine ih _ _ _ hv ?_
          intro hq
          rcases List.mem_append.1 hq with h | h
          · exact hc h
          · simp only [List.mem_singleton] at h
            exact h1 h.symm

end CsvParser

namespace CsvParser

/-! # Claim theorems -/

/-- **C9.** The line splitter: the concrete quoting example
`a,"b,c",d ↦ ["a", "b,c", "d"]`; in general the field count is one more
than the number of commas seen at even quote parity (each such comma ends
a field, and the final accumulator is pushed even if empty, so the output
is never empty); and the `"` characters are consumed, never appearing in
any output field.  (`parseLine` is a Lean function of the line alone, so
determinism/purity is built into the embedding.) -/
theorem c9_parseLine_splitting :
    parseLine "a,\"b,c\",d" = ["a", "b,c", "d"]
    ∧ (∀ l : String, (parseLine l).length = countUnquotedCommas l.data false + 1)
    ∧ (∀ l : String, ∀ f ∈ parseLine l, '"' ∉ f.data) := by
  refine ⟨rfl, ?_, ?_⟩
  · intro l
    simp [parseLine, parseLine_foldl_length l.data [] [] false]
  · intro l f hf
    unfold parseLine at hf
    rcases List.mem_append.1 hf with h | h
    · exact (parseLine_foldl_quote_free l.data [] [] false (by simp) (by simp)).1 f h
    · simp only [List.mem_singleton] at h
      subst h
      intro hq
      exact (parseLine_foldl_quote_free l.data [] [] false (by simp) (by simp)).2
        (mem_of_mem_jsTrimList hq)

/-- Witness for C9 at a concrete field of the concrete example line. -/
theorem c9_parseLine_splitting_witness :
    "b,c" ∈ parseLine "a,\"b,c\",d" ∧ '"' ∉ "b,c".data := by
  have hmem : "b,c" ∈ parseLine "a,\"b,c\",d" := by
    rw [show parseLine "a,\"b,c\",d" = ["a", "b,c", "d"] from rfl]
    simp
  exact ⟨hmem, c9_parseLine_splitting.2.2 "a,\"b,c\",d" "b,c" hmem⟩

/-- **C3** (code bug).  `parseStream` increments `lineNumber` *before* the
blank-line check, and takes the line with `lineNumber === 1` — not the
first non-blank line — as the header.  With a blank first line the real
header reaches the data path while `headers` is still `null`, throws
inside the try-block, and is dropped, as is every subsequent row: the run
reads all three lines, never calls the consumer, and resolves with 0
records.  The whole-file loader `parse()`, which filters blank lines
before selecting the header, materializes the same file's single record —
matching the claimed behaviour and showing the streaming path is the
outlier. -/
theorem c3_stream_blank_before_header :
    parseStreamRun 10 alwaysOk ["", "name,age", "Bob,3"]
      = ([.readLine "", .readLine "name,age", .readLine "Bob,3"], .ok 0)
    ∧ parseFile ["", "name,age", "Bob,3"]
      = .ok ([.vobj [("name", .vstr "Bob"), ("age", .vnum (.finite 3))]], []) :=
  ⟨rfl, rfl⟩

/-- **C2** (code bug).  When a mid-stream batch fails, the catch runs
`rl.close()` before `reject(error)`; the `'close'` listener then finds the
uncleared `batch` non-empty and hands the very same failed batch to
`onBatch` a second time (its outcome is discarded).  The run below shows
the full observable behaviour: the failure is propagated (`.error "boom"`)
and no line after the failing batch is read, but the trace contains two
`callBatch` events with the identical failed batch — contradicting the
claim that no further `onBatch` call is made after the failing one. -/
theorem c2_failed_batch_redelivered :
    parseStreamRun 2 alwaysFail ["a,b", "1,2", "3,4", "5,6"]
      = ([.readLine "a,b", .readLine "1,2", .readLine "3,4",
          .callBatch [.vobj [("a", .vnum (.finite 1)), ("b", .vnum (.finite 2))],
                      .vobj [("a", .vnum (.finite 3)), ("b", .vnum (.finite 4))]],
          .callBatch [.vobj [("a", .vnum (.finite 1)), ("b", .vnum (.finite 2))],
                      .vobj [("a", .vnum (.finite 3)), ("b", .vnum (.finite 4))]]],
         .error "boom") :=
  rfl

/-! ### Numeric-grammar helper lemmas (for C5) -/

theorem takeWhile_eq_self_of_all {p : Char → Bool} :
    ∀ {l : List Char}, l.all p = true → l.takeWhile p = l := by
  intro l
  induction l with
  | nil => intro _; rfl
  | cons a rest ih =>
      intro h
      simp only [List.all_cons, Bool.and_eq_true] at h
      simp [List.takeWhile_cons, h.1, ih h.2]

theorem dropWhile_eq_nil_of_all {p : Char → Bool} :
    ∀ {l : List Char}, l.all p = true → l.dropWhile p = [] := by
  intro l
  induction l with
  | nil => intro _; rfl
  | cons a rest ih =>
      intro h
      simp only [List.all_cons, Bool.and_eq_true] at h
      simp [List.dropWhile_cons, h.1, ih h.2]

theorem all_of_dropWhile_eq_nil {p : Char → Bool} :
    ∀ {l : List Char}, l.dropWhile p = [] → l.all p = true := by
  intro l
  induction l with
  | nil => intro _; rfl
  | cons a rest ih =>
      intro h
      rw [List.dropWhile_cons] at h
      by_cases hp : p a = true
      · simp only [hp, if_true] at h
        simp [List.all_cons, hp, ih h]
      · simp only [hp, if_false] at h
        exact absurd h (by simp)

theorem takeWhile_all {p : Char → Bool} :
    ∀ (l : List Char), (l.takeWhile p).all p = true := by
  intro l
  induction l with
  | nil => rfl
  | cons a rest ih =>
      rw [List.takeWhile_cons]
      by_cases hp : p a = true
      · simp [hp, ih]
      · simp [hp]

theorem head_digit_of_takeWhile_ne_nil {p : Char → Bool} {cs : List Char}
    (h : cs.takeWhile p ≠ []) : ∃ d t, cs = d :: t ∧ p d = true := by
  cases cs with
  | nil => exact absurd rfl h
  | cons d t =>
      by_cases hp : p d = true
      · exact ⟨d, t, rfl, hp⟩
      · rw [List.takeWhile_cons] at h
        simp [hp] at h

/-- A string body accepted by the claim's simple grammar (digits, optional
point and fractional digits) is accepted by the embedded decimal parser;
moreover it starts with a digit and its second character, if any, is a
digit or the decimal point. -/
theorem parseDecMantissa_isSome_of_claimBody (cs : List Char)
    (h : claimBody cs = true) :
    (parseDecMantissa cs).isSome = true
    ∧ ∃ d t, cs = d :: t ∧ isDigitChar d = true
        ∧ (∀ x r2, t = x :: r2 → (isDigitChar x = true ∨ x = '.')) := by
  unfold claimBody at h
  split at h
  case _ heq =>
    -- every character of cs is a digit
    have hall : cs.all isDigitChar = true := all_of_dropWhile_eq_nil heq
    have hne : cs.takeWhile isDigitChar ≠ [] := by
      intro hnil
      rw [hnil] at h
      simp at h
    obtain ⟨d, t, hcs, hd⟩ := head_digit_of_takeWhile_ne_nil hne
    refine ⟨?_, d, t, hcs, hd, ?_⟩
    · simp [parseDecMantissa, heq, hne, parseExpPart]
    · intro x r2 ht
      left
      have : x ∈ cs := by rw [hcs, ht]; simp
      exact List.all_eq_true.1 hall x this
  case _ fs heq =>
    simp only [Bool.and_eq_true] at h
    obtain ⟨⟨hds, hfs⟩, hall⟩ := h
    have hne : cs.takeWhile isDigitChar ≠ [] := by
      intro hnil
      rw [hnil] at hds
      simp at hds
    obtain ⟨d, ds1, hds1⟩ : ∃ d ds1, cs.takeWhile isDigitChar = d :: ds1 := by
      cases hx : cs.takeWhile isDigitChar with
      | nil => exact absurd hx hne
      | cons d ds1 => exact ⟨d, ds1, rfl⟩
    have hsplit : cs = (d :: ds1) ++ '.' :: fs := by
      rw [← hds1, ← heq, List.takeWhile_append_dropWhile]
    have hdall : (d :: ds1).all isDigitChar = true := by
      rw [← hds1]; exact takeWhile_all cs
    simp only [List.all_cons, Bool.and_eq_true] at hdall
    refine ⟨?_, d, ds1 ++ '.' :: fs, by simpa using hsplit, hdall.1, ?_⟩
    · have hfp : fs.takeWhile isDigitChar = fs := takeWhile_eq_self_of_all hall
      have hr3 : fs.dropWhile isDigitChar = [] := dropWhile_eq_nil_of_all hall
      simp [parseDecMantissa, heq, hne, hfp, hr3, parseExpPart]
    · intro x r2 ht
      cases ds1 with
      | nil =>
          simp only [List.nil_append, List.cons.injEq] at ht
          right
          exact ht.1.symm
      | cons y ys =>
          simp only [List.cons_append, List.cons.injEq] at ht
          left
          rw [← ht.1]
          simp only [List.all_cons, Bool.and_eq_true] at hdall
          exact hdall.2.1
  case _ =>
    simp at h

/-- A head digit rules out the `Infinity` literal. -/
theorem ne_infinity_of_head_digit {cs : List Char} {d : Char} {t : List Char}
    (hcs : cs = d :: t) (hd : isDigitChar d = true) : cs ≠ "Infinity".data := by
  intro hinf
  rw [hcs, show "Infinity".data = ['I','n','f','i','n','i','t','y'] from rfl,
    List.cons.injEq] at hinf
  rw [hinf.1] at hd
  exact absurd hd (by decide)

/-- `parseUnsigned` accepts any input accepted by `parseDecMantissa` whose
head is a digit and whose second character (if any) is a digit or a point:
the radix branches and the `Infinity` branch cannot fire. -/
theorem parseUnsigned_isSome (cs : List Char) (d : Char) (t : List Char)
    (hcs : cs = d :: t) (hd : isDigitChar d = true)
    (hsec : ∀ x r2, t = x :: r2 → (isDigitChar x = true ∨ x = '.'))
    (hdec : (parseDecMantissa cs).isSome = true) :
    (parseUnsigned cs).isSome = true := by
  unfold parseUnsigned
  split
  case h_7 =>
    rw [if_neg (ne_infinity_of_head_digit hcs hd)]
    simpa using hdec
  all_goals
    (exfalso
     rename_i rest
     rw [List.cons.injEq] at hcs
     rcases hsec _ rest hcs.2.symm with hx | hx <;> exact absurd hx (by decide))

/-- Every string accepted by the claim's simple grammar is accepted by the
JS `Number` conversion. -/
theorem jsStringToNumber_isSome_of_claimGrammar (s : String)
    (h : claimNumericGrammar s = true) : (jsStringToNumber s).isSome = true := by
  unfold claimNumericGrammar at h
  unfold jsStringToNumber
  unfold claimGrammarAux at h
  split at h
  case h_1 r heq =>
    obtain ⟨hdec, d, t, hr, hd, _⟩ := parseDecMantissa_isSome_of_claimBody r h
    rw [heq]
    simp only [jsStringToNumberAux]
    rw [if_neg (ne_infinity_of_head_digit hr hd)]
    simpa using hdec
  case h_2 r heq =>
    obtain ⟨hdec, d, t, hr, hd, _⟩ := parseDecMantissa_isSome_of_claimBody r h
    rw [heq]
    simp only [jsStringToNumberAux]
    rw [if_neg (ne_infinity_of_head_digit hr hd)]
    simpa using hdec
  case h_3 =>
    obtain ⟨hdec, d, t, hcs, hd, hsec⟩ := parseDecMantissa_isSome_of_claimBody s.data h
    unfold jsStringToNumberAux
    split
    case h_1 heq => rw [heq] at hcs; exact List.noConfusion hcs
    case h_2 rest heq =>
      rw [hcs, List.cons.injEq] at heq
      rw [heq.1] at hd
      exact absurd hd (by decide)
    case h_3 rest heq =>
      rw [hcs, List.cons.injEq] at heq
      rw [heq.1] at hd
      exact absurd hd (by decide)
    case h_4 =>
      exact parseUnsigned_isSome s.data d t hcs hd hsec hdec

/-- **C5** (counterexample).  The claim's simple grammar (optional sign,
digits, optional decimal point and fractional digits) rejects `"1e3"`, so
the claim predicts it stays the literal string `"1e3"`; the code's
`!isNaN(value)` test accepts it and converts it to the number `1000`. -/
theorem c5_counterexample_exponent :
    claimNumericGrammar "1e3" = false
    ∧ convertValue "1e3" = .vnum (.finite 1000)
    ∧ convertValue "1e3" ≠ .vstr "1e3" := by
  refine ⟨rfl, rfl, ?_⟩
  rw [show convertValue "1e3" = .vnum (.finite 1000) from rfl]
  intro hcontra
  exact JsVal.noConfusion hcontra

/-- **C5** (amended).  The row materializer converts a (trimmed) value to a
number exactly when it is non-empty and accepted by the JS `Number`
conversion — the claim's simple grammar extended with exponent parts,
bare-`./`trailing-`.` decimals, hex/octal/binary literals and `Infinity` —
and otherwise keeps it as the trimmed string.  Concretely: `"35"` becomes
the number `35`, `""` stays the empty string, `"A-563"` stays a string;
every string matched by the claim's simple grammar is still converted
(the simple grammar is sound, only incomplete); and every string rejected
by `Number` (i.e. `isNaN`) stays a string. -/
theorem c5_amended_numeric_coercion :
    convertValue "35" = .vnum (.finite 35)
    ∧ convertValue "" = .vstr ""
    ∧ convertValue "A-563" = .vstr "A-563"
    ∧ (∀ s : String, claimNumericGrammar s = true → s ≠ "" →
        ∃ n, convertValue s = .vnum n)
    ∧ (∀ s : String, jsStringToNumber s = none → convertValue s = .vstr s) := by
  refine ⟨rfl, rfl, rfl, ?_, ?_⟩
  · intro s hg hne
    have hs := jsStringToNumber_isSome_of_claimGrammar s hg
    refine ⟨(jsStringToNumber s).getD (.finite 0), ?_⟩
    unfold convertValue
    rw [if_pos ⟨hs, hne⟩]
  · intro s hnone
    unfold convertValue
    rw [if_neg ?_]
    intro hcontra
    rw [hnone] at hcontra
    exact Bool.noConfusion hcontra.1

/-- Witness for C5's amended theorem: the simple-grammar direction at
`"-3.5"` and the `isNaN` direction at `"A-563"`. -/
theorem c5_amended_numeric_coercion_witness :
    (∃ n, convertValue "-3.5" = .vnum n) ∧ convertValue "A-563" = .vstr "A-563" :=
  ⟨c5_amended_numeric_coercion.2.2.2.1 "-3.5" rfl (by decide),
   c5_amended_numeric_coercion.2.2.2.2 "A-563" rfl⟩

/-! ### `mergeDeep` lemmas (for C6 and C10) -/

/-- After `setField`, looking up the written key finds the written value. -/
theorem lookupField_setField_self (fs : List (String × JsVal)) (k : String) (v : JsVal) :
    lookupField (setField fs k v) k = some v := by
  induction fs with
  | nil => simp [setField, lookupField, List.find?]
  | cons p rest ih =>
      obtain ⟨k1, v1⟩ := p
      by_cases hk : k1 = k
      · simp [setField, hk, lookupField, List.find?]
      · simp only [setField, hk, if_false]
        simp only [lookupField, List.find?] at ih ⊢
        simp [hk, ih]

/-- One merge step on a string-primitive target throws the strict-mode
`TypeError` (every branch reaches a property write on the primitive). -/
theorem mergeKey_vstr_error (s1 : String) (k2 : String) (sv : JsVal) :
    mergeKey (.vstr s1) k2 sv
      = .error "TypeError: Cannot create property on primitive or null" := by
  cases sv <;> simp [mergeKey, readProp, writeProp, JsVal.truthy]

/-- **C6** (counterexample).  The claim says the merge recurses only when
*both* sides hold a nested container, and in every other case assigns the
source value over the target key.  The code checks only the source side:
with target `{ a: "x" }` (a truthy primitive at `a`) and source
`{ a: { b: 1 } }`, it recurses into the string `"x"` and the strict-mode
property write throws — nothing is assigned, contradicting the claimed
`{ a: { b: 1 } }` result. -/
theorem c6_counterexample_truthy_primitive_target :
    mergeInto (.vobj [("a", .vstr "x")]) [("a", .vobj [("b", .vnum (.finite 1))])]
      = .error "TypeError: Cannot create property on primitive or null"
    ∧ mergeInto (.vobj [("a", .vstr "x")]) [("a", .vobj [("b", .vnum (.finite 1))])]
      ≠ .ok (.vobj [("a", .vobj [("b", .vnum (.finite 1))])]) := by
  refine ⟨rfl, ?_⟩
  rw [show mergeInto (.vobj [("a", .vstr "x")]) [("a", .vobj [("b", .vnum (.finite 1))])]
      = .error "TypeError: Cannot create property on primitive or null" from rfl]
  intro hcontra
  exact Except.noConfusion hcontra

/-- **C6** (amended).  `mergeDeep` recurses into a key exactly when the
*source* value there is a truthy non-array object, regardless of the
target side: (1) any other source value — scalar or array — is assigned
wholesale over the target key; (2) when the target value at the key is
itself an object, the merge recurses into it; (3) when the target value is
a truthy primitive (e.g. a non-empty string) and the source value is a
non-empty object, the strict-mode property write throws a `TypeError`
instead of assigning; (4) when the key is absent from the target it is
first initialized to a fresh `{}` that the source object is merged into. -/
theorem c6_amended_source_side_recursion :
    (∀ (tf : List (String × JsVal)) (k : String) (sv : JsVal),
        mergeGuard sv = false →
        mergeInto (.vobj tf) [(k, sv)] = .ok (.vobj (setField tf k sv)))
    ∧ (∀ (tf : List (String × JsVal)) (k : String) (sf tkf : List (String × JsVal)),
        lookupField tf k = some (.vobj tkf) →
        mergeInto (.vobj tf) [(k, .vobj sf)]
          = (mergeInto (.vobj tkf) sf).map (fun inner => .vobj (setField tf k inner)))
    ∧ (∀ (tf : List (String × JsVal)) (k s1 : String) (sf : List (String × JsVal)),
        lookupField tf k = some (.vstr s1) → s1 ≠ "" → sf ≠ [] →
        ∃ e, mergeInto (.vobj tf) [(k, .vobj sf)] = .error e)
    ∧ (∀ (tf : List (String × JsVal)) (k : String) (sf : List (String × JsVal)),
        lookupField tf k = none →
        mergeInto (.vobj tf) [(k, .vobj sf)]
          = (mergeInto (.vobj []) sf).map
              (fun inner => .vobj (setField (setField tf k (.vobj [])) k inner))) := by
  refine ⟨?_, ?_, ?_, ?_⟩
  · intro tf k sv hguard
    cases sv with
    | vobj sf => simp [mergeGuard, JsVal.truthy, JsVal.typeofObject, JsVal.isArrayVal] at hguard
    | vnull => simp [mergeInto, mergeKey, writeProp]
    | vnum n => simp [mergeInto, mergeKey, writeProp]
    | vstr s1 => simp [mergeInto, mergeKey, writeProp]
    | varr fs => simp [mergeInto, mergeKey, writeProp]
  · intro tf k sf tkf hlk
    cases hmi : mergeInto (.vobj tkf) sf with
    | error e =>
        simp [mergeInto, mergeKey, readProp, hlk, JsVal.truthy, hmi, writeProp]
    | ok inner =>
        simp [mergeInto, mergeKey, readProp, hlk, JsVal.truthy, hmi, writeProp]
  · intro tf k s1 sf hlk hs hsf
    refine ⟨"TypeError: Cannot create property on primitive or null", ?_⟩
    rcases sf with _ | ⟨⟨k2, sv⟩, rest⟩
    · exact absurd rfl hsf
    · simp [mergeInto, mergeKey_vstr_error, readProp, hlk, JsVal.truthy, hs,
        mergeKey]
  · intro tf k sf hlk
    have hset := lookupField_setField_self tf k (.vobj [])
    cases hmi : mergeInto (.vobj []) sf with
    | error e =>
        simp [mergeInto, mergeKey, readProp, hlk, JsVal.truthy, hset, hmi,
          writeProp]
    | ok inner =>
        simp [mergeInto, mergeKey, readProp, hlk, JsVal.truthy, hset, hmi,
          writeProp]

/-- Witness for C6's amended theorem: an array is assigned wholesale
(part 1), and the counterexample configuration indeed throws (part 3). -/
theorem c6_amended_source_side_recursion_witness :
    mergeInto (.vobj []) [("k", .varr [("0", .vstr "z")])]
      = .ok (.vobj (setField [] "k" (.varr [("0", .vstr "z")])))
    ∧ ∃ e, mergeInto (.vobj [("a", .vstr "x")]) [("a", .vobj [("b", .vnum (.finite 1))])]
        = .error e :=
  ⟨c6_amended_source_side_recursion.1 [] "k" (.varr [("0", .vstr "z")]) rfl,
   c6_amended_source_side_recursion.2.2.1 [("a", .vstr "x")] "a" "x"
     [("b", .vnum (.finite 1))] rfl (by decide) (by simp)⟩

/-! ### Key-set lemmas (for C10) -/

/-- Keys after `setField`: the old keys plus the written key. -/
theorem setField_keys (fs : List (String × JsVal)) (k : String) (v : JsVal) (k1 : String) :
    k1 ∈ fieldKeys (setField fs k v) ↔ (k1 ∈ fieldKeys fs ∨ k1 = k) := by
  induction fs with
  | nil => simp [setField, fieldKeys]
  | cons p rest ih =>
      obtain ⟨ka, va⟩ := p
      by_cases hk : ka = k
      · subst hk
        simp [setField, fieldKeys]
        tauto
      · simp [setField, hk, fieldKeys] at ih ⊢
        tauto

/-- One `mergeDeep` iteration on an object target returns an object whose
keys are the old keys plus the processed source key. -/
theorem mergeKey_vobj_ok (tf : List (String × JsVal)) (k : String) (sv : JsVal)
    (t1 : JsVal) (hok : mergeKey (.vobj tf) k sv = .ok t1) :
    ∃ tf1, t1 = .vobj tf1
      ∧ (∀ k1, k1 ∈ fieldKeys tf1 ↔ (k1 ∈ fieldKeys tf ∨ k1 = k)) := by
  cases sv with
  | vobj sf =>
      rw [show mergeKey (.vobj tf) k (.vobj sf)
          = (do
              let tk0 ← readProp (.vobj tf) k
              let target1 ←
                if !(match tk0 with | some v => v.truthy | none => false) then
                  writeProp (.vobj tf) k (.vobj [])
                else
                  .ok (.vobj tf)
              let tk1 ← readProp target1 k
              let inner ← mergeInto (tk1.getD .vnull) sf
              writeProp target1 k inner) from rfl] at hok
      simp only [readProp, exceptBind_ok] at hok
      cases hl : lookupField tf k with
      | none =>
          rw [hl] at hok
          simp only [Bool.not_false, if_true, writeProp, exceptBind_ok, readProp,
            lookupField_setField_self, Option.getD_some] at hok
          cases hmi : mergeInto (.vobj []) sf with
          | error e => rw [hmi] at hok; exact Except.noConfusion hok
          | ok inner =>
              rw [hmi] at hok
              simp only [exceptBind_ok, writeProp, Except.ok.injEq] at hok
              refine ⟨_, hok.symm, ?_⟩
              intro k1
              rw [setField_keys, setField_keys]
              tauto
      | some v =>
          rw [hl] at hok
          by_cases ht : v.truthy
          · simp only [ht, Bool.not_true, Bool.false_eq_true, if_false, exceptBind_ok,
              readProp, hl, Option.getD_some] at hok
            cases hmi : mergeInto v sf with
            | error e => rw [hmi] at hok; exact Except.noConfusion hok
            | ok inner =>
                rw [hmi] at hok
                simp only [exceptBind_ok, writeProp, Except.ok.injEq] at hok
                exact ⟨_, hok.symm, fun k1 => setField_keys tf k inner k1⟩
          · rw [Bool.not_eq_true] at ht
            simp only [ht, Bool.not_false, eq_self_iff_true, if_true, writeProp,
              exceptBind_ok, readProp, lookupField_setField_self, Option.getD_some] at hok
            cases hmi : mergeInto (.vobj []) sf with
            | error e => rw [hmi] at hok; exact Except.noConfusion hok
            | ok inner =>
                rw [hmi] at hok
                simp only [exceptBind_ok, writeProp, Except.ok.injEq] at hok
                refine ⟨_, hok.symm, ?_⟩
                intro k1
                rw [setField_keys, setField_keys]
                tauto
  | vnull =>
      simp only [mergeKey, writeProp, Except.ok.injEq] at hok
      exact ⟨_, hok.symm, fun k1 => setField_keys tf k _ k1⟩
  | vnum n =>
      simp only [mergeKey, writeProp, Except.ok.injEq] at hok
      exact ⟨_, hok.symm, fun k1 => setField_keys tf k _ k1⟩
  | vstr s1 =>
      simp only [mergeKey, writeProp, Except.ok.injEq] at hok
      exact ⟨_, hok.symm, fun k1 => setField_keys tf k _ k1⟩
  | varr fs =>
      simp only [mergeKey, writeProp, Except.ok.injEq] at hok
      exact ⟨_, hok.symm, fun k1 => setField_keys tf k _ k1⟩

/-- A successful `mergeDeep` on an object target yields an object whose
key set is the union of the target and source key sets. -/
theorem mergeInto_vobj_keys :
    ∀ (src : List (String × JsVal)) (tf : List (String × JsVal)) (r : JsVal),
      mergeInto (.vobj tf) src = .ok r →
      ∃ rf, r = .vobj rf
        ∧ (∀ k1, k1 ∈ fieldKeys rf ↔ (k1 ∈ fieldKeys tf ∨ k1 ∈ fieldKeys src)) := by
  intro src
  induction src with
  | nil =>
      intro tf r hok
      simp only [mergeInto, Except.ok.injEq] at hok
      exact ⟨tf, hok.symm, by simp [fieldKeys]⟩
  | cons p rest ih =>
      intro tf r hok
      obtain ⟨k, sv⟩ := p
      rw [show mergeInto (.vobj tf) ((k, sv) :: rest)
          = (do
              let target1 ← mergeKey (.vobj tf) k sv
              mergeInto target1 rest) from rfl] at hok
      cases hmk : mergeKey (.vobj tf) k sv with
      | error e => rw [hmk] at hok; exact Except.noConfusion hok
      | ok t1 =>
          rw [hmk] at hok
          simp only [exceptBind_ok] at hok
          obtain ⟨tf1, ht1, hkeys1⟩ := mergeKey_vobj_ok tf k sv t1 hmk
          subst ht1
          obtain ⟨rf, hr, hkeys2⟩ := ih tf1 r hok
          refine ⟨rf, hr, ?_⟩
          intro k1
          rw [hkeys2, hkeys1]
          simp [fieldKeys]
          tauto

/-- **C10.**  The top-level key set of a successful `mergeDeep` is exactly
the union of the top-level key sets of target and source: no target key is
ever removed, and every source key is present afterwards. -/
theorem c10_mergeDeep_key_union :
    ∀ (tf src rf : List (String × JsVal)),
      mergeInto (.vobj tf) src = .ok (.vobj rf) →
      ∀ k, k ∈ fieldKeys rf ↔ (k ∈ fieldKeys tf ∨ k ∈ fieldKeys src) := by
  intro tf src rf hok k
  obtain ⟨rf1, hr, hkeys⟩ := mergeInto_vobj_keys src tf _ hok
  rw [JsVal.vobj.injEq] at hr
  rw [hr]
  exact hkeys k

/-- Witness for C10 at a concrete merge. -/
theorem c10_mergeDeep_key_union_witness :
    ("b" ∈ fieldKeys [("a", JsVal.vnum (.finite 1)), ("b", JsVal.vstr "x")]
      ↔ ("b" ∈ fieldKeys [("a", JsVal.vnum (.finite 1))]
          ∨ "b" ∈ fieldKeys [("b", JsVal.vstr "x")])) :=
  c10_mergeDeep_key_union [("a", .vnum (.finite 1))] [("b", .vstr "x")]
    [("a", .vnum (.finite 1)), ("b", .vstr "x")] rfl "b"

/-! ### Streaming-trace lemmas (for C4) -/

@[simp] theorem batchesOf_nil : batchesOf [] = [] := rfl

@[simp] theorem batchesOf_readLine (l : String) (evs : List Event) :
    batchesOf (.readLine l :: evs) = batchesOf evs := rfl

@[simp] theorem batchesOf_warn (n : Nat) (evs : List Event) :
    batchesOf (.warnMismatch n :: evs) = batchesOf evs := rfl

@[simp] theorem batchesOf_callBatch (b : List JsVal) (evs : List Event) :
    batchesOf (.callBatch b :: evs) = b :: batchesOf evs := rfl

/-- Every batch the stream hands to the consumer is non-empty: mid-stream
flushes always contain the just-pushed record, and the final flush is
guarded by `batch.length > 0`. -/
theorem goStream_batch_mem {E : Type} (bs : Nat) (f : List JsVal → Except E Unit) :
    ∀ (ls : List String) (hso : Option (List String)) (batch : List JsVal)
      (ln tot : Nat) (b : List JsVal),
      Event.callBatch b ∈ (goStream bs f ls hso batch ln tot).1 → b ≠ [] := by
  intro ls
  induction ls with
  | nil =>
      intro hso batch ln tot b hb
      by_cases hbe : batch.isEmpty
      · simp [goStream, hbe] at hb
      · cases hob : f batch with
        | ok u =>
            simp [goStream, hbe, hob] at hb
            subst hb
            intro hnil
            rw [hnil] at hbe
            exact hbe rfl
        | error e =>
            simp [goStream, hbe, hob] at hb
            subst hb
            intro hnil
            rw [hnil] at hbe
            exact hbe rfl
  | cons line rest ih =>
      intro hso batch ln tot b hb
      by_cases h1 : jsTrim line = ""
      · simp [goStream, h1] at hb
        exact ih _ _ _ _ _ hb
      · by_cases h2 : ln + 1 = 1
        · simp [goStream, h1, h2] at hb
          exact ih _ _ _ _ _ hb
        · cases hso with
          | none =>
              simp [goStream, h1, h2] at hb
              exact ih _ _ _ _ _ hb
          | some headers =>
              by_cases h3 : (parseLine line).length = headers.length
              · cases hbr : buildRecord headers (parseLine line) with
                | error e =>
                    simp [goStream, h1, h2, h3, hbr] at hb
                    exact ih _ _ _ _ _ hb
                | ok record =>
                    by_cases h4 : bs ≤ batch.length + 1
                    · cases hob : f (batch ++ [record]) with
                      | ok u =>
                          simp [goStream, h1, h2, h3, hbr, h4, hob] at hb
                          rcases hb with hb | hb
                          · rw [hb]; simp
                          · exact ih _ _ _ _ _ hb
                      | error e =>
                          simp [goStream, h1, h2, h3, hbr, h4, hob] at hb
                          rw [hb]; simp
                    · simp [goStream, h1, h2, h3, hbr, h4] at hb
                      exact ih _ _ _ _ _ hb
              · simp [goStream, h1, h2, h3] at hb
                exact ih _ _ _ _ _ hb

/-- On a resolving run the total record count equals the sum of the batch
sizes handed to the consumer (counting the records still pending in the
current batch): every materialized record is delivered exactly once,
including the final partial batch. -/
theorem goStream_sum {E : Type} (bs : Nat) (f : List JsVal → Except E Unit) :
    ∀ (ls : List String) (hso : Option (List String)) (batch : List JsVal)
      (ln tot n : Nat),
      (goStream bs f ls hso batch ln tot).2 = .ok n →
      ((batchesOf (goStream bs f ls hso batch ln tot).1).map List.length).sum + tot
        = n + batch.length := by
  intro ls
  induction ls with
  | nil =>
      intro hso batch ln tot n h
      by_cases hbe : batch.isEmpty
      · rw [List.isEmpty_iff] at hbe
        subst hbe
        simp [goStream] at h ⊢
        omega
      · cases hob : f batch with
        | ok u =>
            simp [goStream, hbe, hob] at h ⊢
            omega
        | error e =>
            simp [goStream, hbe, hob] at h
  | cons line rest ih =>
      intro hso batch ln tot n h
      by_cases h1 : jsTrim line = ""
      · simp only [goStream, h1, if_true, if_pos] at h ⊢
        simp at h ⊢
        exact ih _ _ _ _ _ h
      · by_cases h2 : ln + 1 = 1
        · simp [goStream, h1, h2] at h ⊢
          exact ih _ _ _ _ _ h
        · cases hso with
          | none =>
              simp [goStream, h1, h2] at h ⊢
              exact ih _ _ _ _ _ h
          | some headers =>
              by_cases h3 : (parseLine line).length = headers.length
              · cases hbr : buildRecord headers (parseLine line) with
                | error e =>
                    simp [goStream, h1, h2, h3, hbr] at h ⊢
                    exact ih _ _ _ _ _ h
                | ok record =>
                    by_cases h4 : bs ≤ batch.length + 1
                    · cases hob : f (batch ++ [record]) with
                      | ok u =>
                          simp [goStream, h1, h2, h3, hbr, h4, hob] at h ⊢
                          have := ih _ _ _ _ _ h
                          simp at this
                          omega
                      | error e =>
                          simp [goStream, h1, h2, h3, hbr, h4, hob] at h
                    · simp [goStream, h1, h2, h3, hbr, h4] at h ⊢
                      have := ih _ _ _ _ _ h
                      simp at this
                      omega
              · simp [goStream, h1, h2, h3] at h ⊢
                exact ih _ _ _ _ _ h

/-- **C4.**  Batching.  Concretely: with `batchSize = 2` and 5 valid data
rows the consumer is called exactly 3 times, with the batches
`[2, 2, 1]`-sized, rows in order, and the run resolves with total 5.
In general no `onBatch` call ever receives an empty batch, and on a
resolving run the reported total equals the sum of all delivered batch
sizes (so any final partial batch was handed over before the total was
reported). -/
theorem c4_batching :
    parseStreamRun 2 alwaysOk demoLines
      = ([.readLine "id,name",
          .readLine "1,Alice", .readLine "2,Bob",
          .callBatch [demoRec 1 "Alice", demoRec 2 "Bob"],
          .readLine "3,Carol", .readLine "4,Dave",
          .callBatch [demoRec 3 "Carol", demoRec 4 "Dave"],
          .readLine "5,Eve",
          .callBatch [demoRec 5 "Eve"]], .ok 5)
    ∧ (∀ (E : Type) (bs : Nat) (f : List JsVal → Except E Unit) (ls : List String)
          (b : List JsVal),
        Event.callBatch b ∈ (parseStreamRun bs f ls).1 → b ≠ [])
    ∧ (∀ (E : Type) (bs : Nat) (f : List JsVal → Except E Unit) (ls : List String)
          (n : Nat),
        (parseStreamRun bs f ls).2 = .ok n →
        ((batchesOf (parseStreamRun bs f ls).1).map List.length).sum = n) := by
  refine ⟨rfl, ?_, ?_⟩
  · intro E bs f ls b hb
    exact goStream_batch_mem bs f ls none [] 0 0 b hb
  · intro E bs f ls n h
    have := goStream_sum bs f ls none [] 0 0 n h
    simpa using this

/-- Witness for C4's general parts at the concrete demo run. -/
theorem c4_batching_witness :
    [demoRec 5 "Eve"] ≠ []
    ∧ ((batchesOf (parseStreamRun 2 alwaysOk demoLines).1).map List.length).sum = 5 := by
  constructor
  · apply c4_batching.2.1 Unit 2 alwaysOk demoLines
    rw [show (parseStreamRun 2 alwaysOk demoLines).1
        = [.readLine "id,name",
           .readLine "1,Alice", .readLine "2,Bob",
           .callBatch [demoRec 1 "Alice", demoRec 2 "Bob"],
           .readLine "3,Carol", .readLine "4,Dave",
           .callBatch [demoRec 3 "Carol", demoRec 4 "Dave"],
           .readLine "5,Eve",
           .callBatch [demoRec 5 "Eve"]] from rfl]
    simp
  · exact c4_batching.2.2 Unit 2 alwaysOk demoLines 5 (by rfl)

/-! ### `parse()` row-loop lemmas (for C8) -/

@[simp] theorem exceptMap_map {ε α β γ : Type} (x : Except ε α) (f : α → β) (g : β → γ) :
    (x.map f).map g = x.map (g ∘ f) := by
  cases x <;> rfl

/-- Projecting records past a warning-prepending map. -/
theorem recordsOf_map_warn (x : Except String (List JsVal × List Nat)) (w : Nat) :
    (x.map (fun p => (p.1, w :: p.2))).map Prod.fst = x.map Prod.fst := by
  cases x <;> rfl

/-- Projecting records past a record-prepending map. -/
theorem recordsOf_map_rec (x : Except String (List JsVal × List Nat)) (r : JsVal) :
    (x.map (fun p => (r :: p.1, p.2))).map Prod.fst
      = (x.map Prod.fst).map (fun l => r :: l) := by
  cases x <;> rfl

/-- The records produced by the data-row loop do not depend on the loop
index (it only numbers the warnings). -/
theorem parseRows_records_index_invariant (H : List String) :
    ∀ (rows : List String) (i j : Nat),
      (parseRows H rows i).map Prod.fst = (parseRows H rows j).map Prod.fst := by
  intro rows
  induction rows with
  | nil => intro i j; rfl
  | cons line rest ih =>
      intro i j
      by_cases hm : (parseLine line).length = H.length
      · cases hbr : buildRecord H (parseLine line) with
        | error e => simp [parseRows, hm, hbr]
        | ok r =>
            simp only [parseRows, hm, ne_eq, not_true_eq_false, if_false, hbr]
            rw [recordsOf_map_rec, recordsOf_map_rec, ih (i + 1) (j + 1)]
      · simp only [parseRows, ne_eq, hm, not_false_eq_true, if_true]
        rw [recordsOf_map_warn, recordsOf_map_warn, ih (i + 1) (j + 1)]

/-- A column-count-mismatched row is skipped with a warning. -/
theorem parseRows_skip_mismatch (H : List String) (line : String)
    (rest : List String) (i : Nat) (hm : (parseLine line).length ≠ H.length) :
    parseRows H (line :: rest) i
      = (parseRows H rest (i + 1)).map (fun p => (p.1, (i + 2) :: p.2)) := by
  simp [parseRows, hm]

/-- Dropping a mismatched row from anywhere in the data rows leaves the
record list of `parse()`'s loop unchanged. -/
theorem parseRows_insertion (H : List String) (l : String)
    (hm : (parseLine l).length ≠ H.length) :
    ∀ (ps qs : List String) (i : Nat),
      (parseRows H (ps ++ l :: qs) i).map Prod.fst
        = (parseRows H (ps ++ qs) i).map Prod.fst := by
  intro ps
  induction ps with
  | nil =>
      intro qs i
      simp only [List.nil_append]
      rw [parseRows_skip_mismatch H l qs i hm, recordsOf_map_warn]
      exact parseRows_records_index_invariant H qs (i + 1) i
  | cons p rest ih =>
      intro qs i
      simp only [List.cons_append]
      by_cases hm2 : (parseLine p).length = H.length
      · cases hbr : buildRecord H (parseLine p) with
        | error e => simp [parseRows, hm2, hbr]
        | ok r =>
            simp only [parseRows, hm2, ne_eq, not_true_eq_false, if_false, hbr]
            rw [recordsOf_map_rec, recordsOf_map_rec, ih qs (i + 1)]
      · rw [parseRows_skip_mismatch H p _ i hm2, parseRows_skip_mismatch H p _ i hm2,
          recordsOf_map_warn, recordsOf_map_warn, ih qs (i + 1)]

/-- When the loop completes, the warning for the mismatched row is in the
warning list, numbered by its position among the (filtered) data rows. -/
theorem parseRows_warn_mem (H : List String) (l : String)
    (hm : (parseLine l).length ≠ H.length) :
    ∀ (ps qs : List String) (i : Nat) (recs : List JsVal) (ws : List Nat),
      parseRows H (ps ++ l :: qs) i = .ok (recs, ws) → (i + ps.length + 2) ∈ ws := by
  intro ps
  induction ps with
  | nil =>
      intro qs i recs ws h
      rw [List.nil_append, parseRows_skip_mismatch H l qs i hm] at h
      cases hx : parseRows H qs (i + 1) with
      | error e => rw [hx] at h; exact Except.noConfusion h
      | ok p2 =>
          rw [hx] at h
          simp only [exceptMap_ok, Except.ok.injEq, Prod.mk.injEq] at h
          rw [← h.2]
          simp
  | cons p rest ih =>
      intro qs i recs ws h
      rw [List.cons_append] at h
      by_cases hm2 : (parseLine p).length = H.length
      · cases hbr : buildRecord H (parseLine p) with
        | error e => simp [parseRows, hm2, hbr] at h
        | ok r =>
            simp only [parseRows, hm2, ne_eq, not_true_eq_false, if_false, hbr] at h
            cases hx : parseRows H (rest ++ l :: qs) (i + 1) with
            | error e => rw [hx] at h; exact Except.noConfusion h
            | ok p2 =>
                rw [hx] at h
                simp only [exceptMap_ok, Except.ok.injEq, Prod.mk.injEq] at h
                have hmem := ih qs (i + 1) p2.1 p2.2 (by rw [hx])
                rw [← h.2]
                have heq : i + (rest.length + 1) + 2 = i + 1 + rest.length + 2 := by omega
                simpa [heq] using hmem
      · rw [parseRows_skip_mismatch H p _ i hm2] at h
        cases hx : parseRows H (rest ++ l :: qs) (i + 1) with
        | error e => rw [hx] at h; exact Except.noConfusion h
        | ok p2 =>
            rw [hx] at h
            simp only [exceptMap_ok, Except.ok.injEq, Prod.mk.injEq] at h
            have hmem := ih qs (i + 1) p2.1 p2.2 (by rw [hx])
            rw [← h.2]
            have heq : i + (rest.length + 1) + 2 = i + 1 + rest.length + 2 := by omega
            right
            simpa [heq] using hmem

/-! ### Streaming insertion lemmas (for C8) -/

/-- Once headers are set (so the `lineNumber === 1` branch is dead), the
batches and the outcome of the stream do not depend on the current line
number — it only numbers the warnings. -/
theorem goStream_ln_invariant {E : Type} (bs : Nat) (f : List JsVal → Except E Unit) :
    ∀ (ls : List String) (H : List String) (batch : List JsVal) (tot ln1 ln2 : Nat),
      1 ≤ ln1 → 1 ≤ ln2 →
      (batchesOf (goStream bs f ls (some H) batch ln1 tot).1,
       (goStream bs f ls (some H) batch ln1 tot).2)
        = (batchesOf (goStream bs f ls (some H) batch ln2 tot).1,
           (goStream bs f ls (some H) batch ln2 tot).2) := by
  intro ls
  induction ls with
  | nil => intro H batch tot ln1 ln2 _ _; rfl
  | cons line rest ih =>
      intro H batch tot ln1 ln2 hl1 hl2
      have hn1 : ¬(ln1 + 1 = 1) := by omega
      have hn2 : ¬(ln2 + 1 = 1) := by omega
      by_cases h1 : jsTrim line = ""
      · have hrec := ih H batch tot (ln1 + 1) (ln2 + 1) (by omega) (by omega)
        rw [Prod.mk.injEq] at hrec
        simp [goStream, h1, hrec.1, hrec.2]
      · by_cases h3 : (parseLine line).length = H.length
        · cases hbr : buildRecord H (parseLine line) with
          | error e =>
              have hrec := ih H batch tot (ln1 + 1) (ln2 + 1) (by omega) (by omega)
              rw [Prod.mk.injEq] at hrec
              simp [goStream, h1, hn1, hn2, h3, hbr, hrec.1, hrec.2]
          | ok record =>
              by_cases h4 : bs ≤ batch.length + 1
              · cases hob : f (batch ++ [record]) with
                | ok u =>
                    have hrec := ih H [] (tot + 1) (ln1 + 1) (ln2 + 1) (by omega) (by omega)
                    rw [Prod.mk.injEq] at hrec
                    simp [goStream, h1, hn1, hn2, h3, hbr, h4, hob, hrec.1, hrec.2]
                | error e =>
                    simp [goStream, h1, hn1, hn2, h3, hbr, h4, hob]
              · have hrec := ih H (batch ++ [record]) (tot + 1) (ln1 + 1) (ln2 + 1)
                  (by omega) (by omega)
                rw [Prod.mk.injEq] at hrec
                simp [goStream, h1, hn1, hn2, h3, hbr, h4, hrec.1, hrec.2]
        · have hrec := ih H batch tot (ln1 + 1) (ln2 + 1) (by omega) (by omega)
          rw [Prod.mk.injEq] at hrec
          simp [goStream, h1, hn1, hn2, h3, hrec.1, hrec.2]

/-- A mismatched data line only contributes a read event and a warning. -/
theorem goStream_skip_mismatch {E : Type} (bs : Nat) (f : List JsVal → Except E Unit)
    (l : String) (post : List String) (H : List String) (batch : List JsVal)
    (ln tot : Nat) (hln : ¬(ln + 1 = 1)) (hl : jsTrim l ≠ "")
    (hm : (parseLine l).length ≠ H.length) :
    goStream bs f (l :: post) (some H) batch ln tot
      = (.readLine l :: .warnMismatch (ln + 1)
            :: (goStream bs f post (some H) batch (ln + 1) tot).1,
         (goStream bs f post (some H) batch (ln + 1) tot).2) := by
  simp [goStream, hl, hln, hm]

/-- Dropping a mismatched data line from anywhere after the header leaves
the delivered batches and the outcome unchanged. -/
theorem goStream_insertion {E : Type} (bs : Nat) (f : List JsVal → Except E Unit)
    (l : String) (hl : jsTrim l ≠ "") :
    ∀ (pre post : List String) (H : List String) (batch : List JsVal) (ln tot : Nat),
      1 ≤ ln → (parseLine l).length ≠ H.length →
      (batchesOf (goStream bs f (pre ++ l :: post) (some H) batch ln tot).1,
       (goStream bs f (pre ++ l :: post) (some H) batch ln tot).2)
        = (batchesOf (goStream bs f (pre ++ post) (some H) batch ln tot).1,
           (goStream bs f (pre ++ post) (some H) batch ln tot).2) := by
  intro pre
  induction pre with
  | nil =>
      intro post H batch ln tot hln hm
      rw [List.nil_append, List.nil_append,
        goStream_skip_mismatch bs f l post H batch ln tot (by omega) hl hm]
      simp only [batchesOf_readLine, batchesOf_warn]
      exact goStream_ln_invariant bs f post H batch tot (ln + 1) ln (by omega) (by omega)
  | cons line rest ih =>
      intro post H batch ln tot hln hm
      have hn1 : ¬(ln + 1 = 1) := by omega
      rw [List.cons_append, List.cons_append]
      by_cases h1 : jsTrim line = ""
      · have hrec := ih post H batch (ln + 1) tot (by omega) hm
        rw [Prod.mk.injEq] at hrec
        simp [goStream, h1, hrec.1, hrec.2]
      · by_cases h3 : (parseLine line).length = H.length
        · cases hbr : buildRecord H (parseLine line) with
          | error e =>
              have hrec := ih post H batch (ln + 1) tot (by omega) hm
              rw [Prod.mk.injEq] at hrec
              simp [goStream, h1, hn1, h3, hbr, hrec.1, hrec.2]
          | ok record =>
              by_cases h4 : bs ≤ batch.length + 1
              · cases hob : f (batch ++ [record]) with
                | ok u =>
                    have hrec := ih post H [] (ln + 1) (tot + 1) (by omega) hm
                    rw [Prod.mk.injEq] at hrec
                    simp [goStream, h1, hn1, h3, hbr, h4, hob, hrec.1, hrec.2]
                | error e =>
                    simp [goStream, h1, hn1, h3, hbr, h4, hob]
              · have hrec := ih post H (batch ++ [record]) (ln + 1) (tot + 1) (by omega) hm
                rw [Prod.mk.injEq] at hrec
                simp [goStream, h1, hn1, h3, hbr, h4, hrec.1, hrec.2]
        · have hrec := ih post H batch (ln + 1) tot (by omega) hm
          simp [goStream, h1, hn1, h3]
          rw [Prod.mk.injEq] at hrec
          exact ⟨hrec.1, hrec.2⟩

/-- With a consumer that never fails, the run reaches the mismatched line
and emits its warning, numbered by the line's physical position. -/
theorem goStream_warn_mem {E : Type} (bs : Nat) (f : List JsVal → Except E Unit)
    (hfok : ∀ b, f b = .ok ()) (l : String) (hl : jsTrim l ≠ "") :
    ∀ (pre post : List String) (H : List String) (batch : List JsVal) (ln tot : Nat),
      1 ≤ ln → (parseLine l).length ≠ H.length →
      Event.warnMismatch (ln + pre.length + 1)
        ∈ (goStream bs f (pre ++ l :: post) (some H) batch ln tot).1 := by
  intro pre
  induction pre with
  | nil =>
      intro post H batch ln tot hln hm
      rw [List.nil_append,
        goStream_skip_mismatch bs f l post H batch ln tot (by omega) hl hm]
      simp
  | cons line rest ih =>
      intro post H batch ln tot hln hm
      have hn1 : ¬(ln + 1 = 1) := by omega
      have harith : ln + (rest.length + 1) + 1 = (ln + 1) + rest.length + 1 := by omega
      rw [List.cons_append]
      by_cases h1 : jsTrim line = ""
      · simp only [goStream, h1, ne_eq, not_true_eq_false, if_false, if_true, List.mem_cons]
        right
        simp only [List.length_cons, harith]
        exact ih post H batch (ln + 1) tot (by omega) hm
      · by_cases h3 : (parseLine line).length = H.length
        · cases hbr : buildRecord H (parseLine line) with
          | error e =>
              simp only [goStream, h1, hn1, h3, hbr]
              simp only [List.length_cons, harith, ne_eq, not_true_eq_false, if_false,
                ite_false, if_neg h1, if_neg hn1, List.mem_cons]
              right
              exact ih post H batch (ln + 1) tot (by omega) hm
          | ok record =>
              by_cases h4 : bs ≤ batch.length + 1
              · simp only [goStream, h1, hn1, h3, hbr, h4, hfok]
                simp only [List.length_cons, harith, if_neg h1, if_neg hn1, List.mem_cons]
                simp [h4, hfok]
                exact ih post H [] (ln + 1) (tot + 1) (by omega) hm
              · simp only [goStream, h1, hn1, h3, hbr, h4]
                simp only [List.length_cons, harith, if_neg h1, if_neg hn1, List.mem_cons]
                simp [h4]
                exact ih post H (batch ++ [record]) (ln + 1) (tot + 1) (by omega) hm
        · simp only [goStream, h1, hn1, h3]
          simp only [List.length_cons, harith, if_neg h1, if_neg hn1, List.mem_cons]
          simp [h3]
          right
          exact ih post H batch (ln + 1) tot (by omega) hm

/-- **C8.**  A data line whose split-field count differs from the header
count produces no record in either pipeline: in the stream it changes
neither the delivered batches nor the outcome (dropping it is invisible to
the consumer and the promise), and — when the consumer never fails, so the
run is not cut short — a warning numbered with the line's physical position
is emitted; in the whole-file loader the record list is likewise unchanged
and, on a completed run, the warning (numbered by the row's position among
the filtered lines) is in the warning list.  Surrounding rows are
processed either way and the run is never aborted by such a row. -/
theorem c8_mismatched_rows_skipped :
    (∀ (E : Type) (bs : Nat) (f : List JsVal → Except E Unit) (h : String)
        (pre post : List String) (l : String),
        jsTrim h ≠ "" → jsTrim l ≠ "" →
        (parseLine l).length ≠ (parseLine h).length →
        batchesOf (parseStreamRun bs f (h :: (pre ++ l :: post))).1
            = batchesOf (parseStreamRun bs f (h :: (pre ++ post))).1
        ∧ (parseStreamRun bs f (h :: (pre ++ l :: post))).2
            = (parseStreamRun bs f (h :: (pre ++ post))).2
        ∧ ((∀ b, f b = .ok ()) →
            Event.warnMismatch (pre.length + 2)
              ∈ (parseStreamRun bs f (h :: (pre ++ l :: post))).1))
    ∧ (∀ (pre post : List String) (l h : String) (ps : List String),
        pre.filter (fun x => jsTrim x ≠ "") = h :: ps →
        jsTrim l ≠ "" →
        (parseLine l).length ≠ (parseLine h).length →
        (parseFile (pre ++ l :: post)).map Prod.fst
            = (parseFile (pre ++ post)).map Prod.fst
        ∧ ∀ (recs : List JsVal) (ws : List Nat),
            parseFile (pre ++ l :: post) = .ok (recs, ws) → (ps.length + 2) ∈ ws) := by
  constructor
  · intro E bs f h pre post l hh hl hm
    have hstep : ∀ (tail : List String),
        parseStreamRun bs f (h :: tail)
          = (.readLine h :: (goStream bs f tail (some (parseLine h)) [] 1 0).1,
             (goStream bs f tail (some (parseLine h)) [] 1 0).2) := by
      intro tail
      simp [parseStreamRun, goStream, hh]
    rw [hstep, hstep]
    have hins := goStream_insertion bs f l hl pre post (parseLine h) [] 1 0 (by omega) hm
    rw [Prod.mk.injEq] at hins
    refine ⟨by simpa using hins.1, hins.2, ?_⟩
    intro hfok
    have hw := goStream_warn_mem bs f hfok l hl pre post (parseLine h) [] 1 0 (by omega) hm
    simp only [List.mem_cons]
    right
    have harith : 1 + pre.length + 1 = pre.length + 2 := by omega
    rw [harith] at hw
    exact hw
  · intro pre post l h ps hpre hl hm
    have hfill : (pre ++ l :: post).filter (fun x => jsTrim x ≠ "")
        = h :: (ps ++ l :: post.filter (fun x => jsTrim x ≠ "")) := by
      rw [List.filter_append, hpre]
      simp [hl]
    have hfilr : (pre ++ post).filter (fun x => jsTrim x ≠ "")
        = h :: (ps ++ post.filter (fun x => jsTrim x ≠ "")) := by
      rw [List.filter_append, hpre]
      simp
    constructor
    · unfold parseFile
      rw [hfill, hfilr]
      exact parseRows_insertion (parseLine h) l hm ps _ 0
    · intro recs ws hok
      unfold parseFile at hok
      rw [hfill] at hok
      have := parseRows_warn_mem (parseLine h) l hm ps _ 0 recs ws hok
      simpa using this

/-- Witness for C8 at a concrete mismatched line in both pipelines. -/
theorem c8_mismatched_rows_skipped_witness :
    batchesOf (parseStreamRun 10 alwaysOk ("a,b" :: ([] ++ "1,2,3" :: ["4,5"]))).1
        = batchesOf (parseStreamRun 10 alwaysOk ("a,b" :: ([] ++ ["4,5"]))).1
    ∧ (parseFile (["a,b"] ++ "1,2,3" :: ["4,5"])).map Prod.fst
        = (parseFile (["a,b"] ++ ["4,5"])).map Prod.fst := by
  constructor
  · exact (c8_mismatched_rows_skipped.1 Unit 10 alwaysOk "a,b" [] ["4,5"] "1,2,3"
      (by decide) (by decide) (by decide)).1
  · exact (c8_mismatched_rows_skipped.2 ["a,b"] ["4,5"] "1,2,3" "a,b" []
      (by decide) (by decide) (by decide)).1

/-! ### Shape and array-freeness lemmas (for C7) -/

/-- Shape-equal field lists have parallel lookups: both miss, or both hit
with shape-equal values. -/
theorem lookupField_shape_parallel :
    ∀ (tf tg : List (String × JsVal)), shapeOfFields tf = shapeOfFields tg →
    ∀ (k : String),
      (lookupField tf k = none ∧ lookupField tg k = none)
      ∨ (∃ v w, lookupField tf k = some v ∧ lookupField tg k = some w
          ∧ shapeOfVal v = shapeOfVal w) := by
  intro tf
  induction tf with
  | nil =>
      intro tg hsh k
      cases tg with
      | nil => exact Or.inl ⟨rfl, rfl⟩
      | cons q rg => simp [shapeOfFields] at hsh
  | cons p rest ih =>
      intro tg hsh k
      cases tg with
      | nil =>
          obtain ⟨k1, v1⟩ := p
          simp [shapeOfFields] at hsh
      | cons q rg =>
          obtain ⟨k1, v1⟩ := p
          obtain ⟨k2, w1⟩ := q
          simp only [shapeOfFields, List.cons.injEq, Prod.mk.injEq] at hsh
          obtain ⟨⟨hk, hvw⟩, hrest⟩ := hsh
          subst hk
          by_cases hkk : k1 = k
          · right
            exact ⟨v1, w1, by simp [lookupField, List.find?, hkk],
              by simp [lookupField, List.find?, hkk], hvw⟩
          · have hrec := ih rg hrest k
            simp only [lookupField, List.find?] at hrec ⊢
            simp only [hkk, decide_eq_false, Bool.false_eq_true] at *
            simp [hkk] at hrec ⊢
            exact hrec

/-- `setField` preserves shape equality. -/
theorem setField_shape :
    ∀ (tf tg : List (String × JsVal)) (k : String) (v w : JsVal),
      shapeOfFields tf = shapeOfFields tg → shapeOfVal v = shapeOfVal w →
      shapeOfFields (setField tf k v) = shapeOfFields (setField tg k w) := by
  intro tf
  induction tf with
  | nil =>
      intro tg k v w hsh hvw
      cases tg with
      | nil => simp [setField, shapeOfFields, hvw]
      | cons q rg => simp [shapeOfFields] at hsh
  | cons p rest ih =>
      intro tg k v w hsh hvw
      cases tg with
      | nil =>
          obtain ⟨k1, v1⟩ := p
          simp [shapeOfFields] at hsh
      | cons q rg =>
          obtain ⟨k1, v1⟩ := p
          obtain ⟨k2, w1⟩ := q
          simp only [shapeOfFields, List.cons.injEq, Prod.mk.injEq] at hsh
          obtain ⟨⟨hk, hvw1⟩, hrest⟩ := hsh
          subst hk
          by_cases hkk : k1 = k
          · simp [setField, hkk, shapeOfFields, hvw, hvw1, hrest]
          · simp only [setField, hkk, if_false, shapeOfFields, List.cons.injEq,
              Prod.mk.injEq]
            exact ⟨⟨trivial, hvw1⟩, ih rg k v w hrest hvw⟩

/-- Looking up in an array-free field list yields an array-free value. -/
theorem arrFree_lookup :
    ∀ (tf : List (String × JsVal)) (k : String) (v : JsVal),
      arrFreeFields tf = true → lookupField tf k = some v → arrFreeVal v = true := by
  intro tf
  induction tf with
  | nil => intro k v _ hl; simp [lookupField, List.find?] at hl
  | cons p rest ih =>
      intro k v haf hl
      obtain ⟨k1, v1⟩ := p
      simp only [arrFreeFields, Bool.and_eq_true] at haf
      by_cases hkk : k1 = k
      · subst hkk
        simp only [lookupField, List.find?] at hl
        simp at hl
        rw [← hl]
        exact haf.1
      · simp only [lookupField, List.find?] at hl
        simp [hkk] at hl
        exact ih k v haf.2 (by simp [lookupField, List.find?, hl])

/-- `setField` with an array-free value preserves array-freeness. -/
theorem arrFree_setField :
    ∀ (tf : List (String × JsVal)) (k : String) (v : JsVal),
      arrFreeFields tf = true → arrFreeVal v = true →
      arrFreeFields (setField tf k v) = true := by
  intro tf
  induction tf with
  | nil => intro k v _ hv; simp [setField, arrFreeFields, hv]
  | cons p rest ih =>
      intro k v haf hv
      obtain ⟨k1, v1⟩ := p
      simp only [arrFreeFields, Bool.and_eq_true] at haf
      by_cases hkk : k1 = k
      · simp [setField, hkk, arrFreeFields, hv, haf.2]
      · simp [setField, hkk, arrFreeFields, haf.1, ih k v haf.2 hv]

/-! ### Single-key merge characterizations (for C7) -/

/-- Merging a non-empty source into a `null`/string/number target never
succeeds (the first iteration throws). -/
theorem mergeInto_prim_not_ok :
    ∀ (t : JsVal), (t = .vnull ∨ (∃ s1, t = .vstr s1) ∨ (∃ nn, t = .vnum nn)) →
    ∀ (k : String) (sv : JsVal) (rest : List (String × JsVal)) (r : JsVal),
      mergeInto t ((k, sv) :: rest) ≠ .ok r := by
  intro t ht k sv rest r hok
  cases hmk : mergeKey t k sv with
  | ok t1 =>
      rcases ht with h | ⟨s1, h⟩ | ⟨nn, h⟩ <;> subst h <;> cases sv <;>
        simp [mergeKey, readProp, writeProp] at hmk
  | error e =>
      rw [show mergeInto t ((k, sv) :: rest)
          = (mergeKey t k sv >>= fun t1 => mergeInto t1 rest) from rfl, hmk] at hok
      exact Except.noConfusion hok

/-- Scalar sources are assigned directly on an object target. -/
theorem mergeInto_singleton_scalar (tf : List (String × JsVal)) (k : String)
    (x : JsVal) (hx : isScalarLeaf x) :
    mergeInto (.vobj tf) [(k, x)] = .ok (.vobj (setField tf k x)) := by
  rcases hx with ⟨s1, h⟩ | ⟨nn, h⟩ <;> subst h <;>
    simp [mergeInto, mergeKey, writeProp]

/-- With a truthy target value at the key, an object source merges into it
in place. -/
theorem mergeInto_singleton_truthy (tf : List (String × JsVal)) (k : String)
    (sf : List (String × JsVal)) (tv : JsVal)
    (hl : lookupField tf k = some tv) (ht : tv.truthy = true) :
    mergeInto (.vobj tf) [(k, .vobj sf)]
      = (mergeInto tv sf).map (fun inner => .vobj (setField tf k inner)) := by
  cases hmi : mergeInto tv sf with
  | error e => simp [mergeInto, mergeKey, readProp, hl, ht, hmi, writeProp]
  | ok inner => simp [mergeInto, mergeKey, readProp, hl, ht, hmi, writeProp]

/-- With an absent or falsy target value at the key, it is first replaced
by `{}` and the object source merges into that. -/
theorem mergeInto_singleton_init (tf : List (String × JsVal)) (k : String)
    (sf : List (String × JsVal))
    (hl : (match lookupField tf k with | some v => v.truthy | none => false) = false) :
    mergeInto (.vobj tf) [(k, .vobj sf)]
      = (mergeInto (.vobj []) sf).map
          (fun inner => .vobj (setField (setField tf k (.vobj [])) k inner)) := by
  cases hmi : mergeInto (.vobj []) sf with
  | error e =>
      simp [mergeInto, mergeKey, readProp, hl, hmi, writeProp, lookupField_setField_self]
  | ok inner =>
      simp [mergeInto, mergeKey, readProp, hl, hmi, writeProp, lookupField_setField_self]

/-- A `SamePath` source is never empty. -/
theorem samePath_ne_nil {a b : List (String × JsVal)} (h : SamePath a b) :
    a ≠ [] ∧ b ≠ [] := by
  cases h <;> exact ⟨by simp, by simp⟩

/-- Merging the same dotted path with scalar leaves into two shape-equal,
array-free targets: if both merges succeed, the results are shape-equal
and array-free.  (When the two rows disagree on truthiness at a primitive
target slot, the truthy side throws, so the hypothesis of both succeeding
silently discharges those cases.) -/
theorem samePath_merge_shape :
    ∀ {src srcg : List (String × JsVal)}, SamePath src srcg →
    ∀ (t tg : JsVal), arrFreeVal t = true → arrFreeVal tg = true →
      shapeOfVal t = shapeOfVal tg →
    ∀ (r rg : JsVal), mergeInto t src = .ok r → mergeInto tg srcg = .ok rg →
      shapeOfVal r = shapeOfVal rg ∧ arrFreeVal r = true ∧ arrFreeVal rg = true := by
  intro src srcg hsp
  induction hsp with
  | leaf k x y hx hy =>
      intro t tg hat hatg hsh r rg hr hrg
      cases t with
      | vnull => exact absurd hr (mergeInto_prim_not_ok _ (Or.inl rfl) _ _ _ _)
      | vstr s1 => exact absurd hr (mergeInto_prim_not_ok _ (Or.inr (Or.inl ⟨s1, rfl⟩)) _ _ _ _)
      | vnum nn => exact absurd hr (mergeInto_prim_not_ok _ (Or.inr (Or.inr ⟨nn, rfl⟩)) _ _ _ _)
      | varr fs => simp [arrFreeVal] at hat
      | vobj tf =>
          cases tg with
          | vnull => exact absurd hrg (mergeInto_prim_not_ok _ (Or.inl rfl) _ _ _ _)
          | vstr s1 => exact absurd hrg (mergeInto_prim_not_ok _ (Or.inr (Or.inl ⟨s1, rfl⟩)) _ _ _ _)
          | vnum nn => exact absurd hrg (mergeInto_prim_not_ok _ (Or.inr (Or.inr ⟨nn, rfl⟩)) _ _ _ _)
          | varr fs => simp [arrFreeVal] at hatg
          | vobj tgf =>
              rw [mergeInto_singleton_scalar tf k x hx, Except.ok.injEq] at hr
              rw [mergeInto_singleton_scalar tgf k y hy, Except.ok.injEq] at hrg
              subst hr
              subst hrg
              have hff : shapeOfFields tf = shapeOfFields tgf := by
                simpa [shapeOfVal, Shape.node.injEq] using hsh
              have hxy : shapeOfVal x = shapeOfVal y := by
                rcases hx with ⟨s1, hx⟩ | ⟨n1, hx⟩ <;> rcases hy with ⟨s2, hy⟩ | ⟨n2, hy⟩ <;>
                  subst hx <;> subst hy <;> rfl
              have hax : arrFreeVal x = true := by
                rcases hx with ⟨s1, hx⟩ | ⟨n1, hx⟩ <;> subst hx <;> rfl
              have hay : arrFreeVal y = true := by
                rcases hy with ⟨s2, hy⟩ | ⟨n2, hy⟩ <;> subst hy <;> rfl
              refine ⟨?_, ?_, ?_⟩
              · simp only [shapeOfVal]
                exact congrArg Shape.node (setField_shape tf tgf k x y hff hxy)
              · simp only [arrFreeVal]
                exact arrFree_setField tf k x (by simpa [arrFreeVal] using hat) hax
              · simp only [arrFreeVal]
                exact arrFree_setField tgf k y (by simpa [arrFreeVal] using hatg) hay
  | node k sf sg hsub ih =>
      intro t tg hat hatg hsh r rg hr hrg
      obtain ⟨hsf_ne, hsg_ne⟩ := samePath_ne_nil hsub
      cases t with
      | vnull => exact absurd hr (mergeInto_prim_not_ok _ (Or.inl rfl) _ _ _ _)
      | vstr s1 => exact absurd hr (mergeInto_prim_not_ok _ (Or.inr (Or.inl ⟨s1, rfl⟩)) _ _ _ _)
      | vnum nn => exact absurd hr (mergeInto_prim_not_ok _ (Or.inr (Or.inr ⟨nn, rfl⟩)) _ _ _ _)
      | varr fs => simp [arrFreeVal] at hat
      | vobj tf =>
          cases tg with
          | vnull => exact absurd hrg (mergeInto_prim_not_ok _ (Or.inl rfl) _ _ _ _)
          | vstr s1 => exact absurd hrg (mergeInto_prim_not_ok _ (Or.inr (Or.inl ⟨s1, rfl⟩)) _ _ _ _)
          | vnum nn => exact absurd hrg (mergeInto_prim_not_ok _ (Or.inr (Or.inr ⟨nn, rfl⟩)) _ _ _ _)
          | varr fs => simp [arrFreeVal] at hatg
          | vobj tgf =>
              have hff : shapeOfFields tf = shapeOfFields tgf := by
                simpa [shapeOfVal, Shape.node.injEq] using hsh
              have haf : arrFreeFields tf = true := by simpa [arrFreeVal] using hat
              have hafg : arrFreeFields tgf = true := by simpa [arrFreeVal] using hatg
              rcases lookupField_shape_parallel tf tgf hff k with ⟨hn1, hn2⟩ | ⟨v, w, hv, hw, hvw⟩
              · -- key absent on both sides: both go through the {} init
                rw [mergeInto_singleton_init tf k sf (by rw [hn1])] at hr
                rw [mergeInto_singleton_init tgf k sg (by rw [hn2])] at hrg
                cases hmi : mergeInto (.vobj []) sf with
                | error e => rw [hmi] at hr; exact Except.noConfusion hr
                | ok inner =>
                    cases hmig : mergeInto (.vobj []) sg with
                    | error e => rw [hmig] at hrg; exact Except.noConfusion hrg
                    | ok innerg =>
                        rw [hmi] at hr
                        rw [hmig] at hrg
                        simp only [exceptMap_ok, Except.ok.injEq] at hr hrg
                        subst hr
                        subst hrg
                        obtain ⟨hish, hia, hiag⟩ :=
                          ih (.vobj []) (.vobj []) rfl rfl rfl inner innerg hmi hmig
                        refine ⟨?_, ?_, ?_⟩
                        · simp only [shapeOfVal]
                          exact congrArg Shape.node
                            (setField_shape _ _ k inner innerg
                              (setField_shape tf tgf k (.vobj []) (.vobj []) hff rfl) hish)
                        · simp only [arrFreeVal]
                          exact arrFree_setField _ k inner
                            (arrFree_setField tf k (.vobj []) haf rfl) hia
                        · simp only [arrFreeVal]
                          exact arrFree_setField _ k innerg
                            (arrFree_setField tgf k (.vobj []) hafg rfl) hiag
              · by_cases htv : v.truthy
                · cases v with
                  | vobj vf =>
                      cases w with
                      | vobj wf =>
                          rw [mergeInto_singleton_truthy tf k sf _ hv htv] at hr
                          rw [mergeInto_singleton_truthy tgf k sg _ hw (by rfl)] at hrg
                          cases hmi : mergeInto (.vobj vf) sf with
                          | error e => rw [hmi] at hr; exact Except.noConfusion hr
                          | ok inner =>
                              cases hmig : mergeInto (.vobj wf) sg with
                              | error e => rw [hmig] at hrg; exact Except.noConfusion hrg
                              | ok innerg =>
                                  rw [hmi] at hr
                                  rw [hmig] at hrg
                                  simp only [exceptMap_ok, Except.ok.injEq] at hr hrg
                                  subst hr
                                  subst hrg
                                  obtain ⟨hish, hia, hiag⟩ :=
                                    ih (.vobj vf) (.vobj wf)
                                      (arrFree_lookup tf k _ haf hv)
                                      (arrFree_lookup tgf k _ hafg hw)
                                      hvw inner innerg hmi hmig
                                  refine ⟨?_, ?_, ?_⟩
                                  · simp only [shapeOfVal]
                                    exact congrArg Shape.node
                                      (setField_shape tf tgf k inner innerg hff hish)
                                  · simp only [arrFreeVal]
                                    exact arrFree_setField tf k inner haf hia
                                  · simp only [arrFreeVal]
                                    exact arrFree_setField tgf k innerg hafg hiag
                      | vnull => simp [shapeOfVal] at hvw
                      | vstr s2 => simp [shapeOfVal] at hvw
                      | vnum n2 => simp [shapeOfVal] at hvw
                      | varr fs2 => simp [shapeOfVal] at hvw
                  | vnull => simp [JsVal.truthy] at htv
                  | varr fs1 =>
                      have := arrFree_lookup tf k _ haf hv
                      simp [arrFreeVal] at this
                  | vstr s1 =>
                      rw [mergeInto_singleton_truthy tf k sf _ hv htv] at hr
                      cases sf with
                      | nil => exact absurd rfl hsf_ne
                      | cons p2 rest2 =>
                          obtain ⟨k2, sv2⟩ := p2
                          cases hmi : mergeInto (.vstr s1) ((k2, sv2) :: rest2) with
                          | error e => rw [hmi] at hr; exact Except.noConfusion hr
                          | ok i =>
                              exact absurd hmi
                                (mergeInto_prim_not_ok _ (Or.inr (Or.inl ⟨s1, rfl⟩)) _ _ _ _)
                  | vnum n1 =>
                      rw [mergeInto_singleton_truthy tf k sf _ hv htv] at hr
                      cases sf with
                      | nil => exact absurd rfl hsf_ne
                      | cons p2 rest2 =>
                          obtain ⟨k2, sv2⟩ := p2
                          cases hmi : mergeInto (.vnum n1) ((k2, sv2) :: rest2) with
                          | error e => rw [hmi] at hr; exact Except.noConfusion hr
                          | ok i =>
                              exact absurd hmi
                                (mergeInto_prim_not_ok _ (Or.inr (Or.inr ⟨n1, rfl⟩)) _ _ _ _)
                · rw [Bool.not_eq_true] at htv
                  by_cases htw : w.truthy
                  · cases w with
                    | vobj wf =>
                        cases v with
                        | vobj vf => simp [JsVal.truthy] at htv
                        | vnull => simp [shapeOfVal] at hvw
                        | vstr s2 => simp [shapeOfVal] at hvw
                        | vnum n2 => simp [shapeOfVal] at hvw
                        | varr fs2 => simp [shapeOfVal] at hvw
                    | vnull => simp [JsVal.truthy] at htw
                    | varr fs2 =>
                        have := arrFree_lookup tgf k _ hafg hw
                        simp [arrFreeVal] at this
                    | vstr s2 =>
                        rw [mergeInto_singleton_truthy tgf k sg _ hw htw] at hrg
                        cases sg with
                        | nil => exact absurd rfl hsg_ne
                        | cons p2 rest2 =>
                            obtain ⟨k2, sv2⟩ := p2
                            cases hmig : mergeInto (.vstr s2) ((k2, sv2) :: rest2) with
                            | error e => rw [hmig] at hrg; exact Except.noConfusion hrg
                            | ok i =>
                                exact absurd hmig
                                  (mergeInto_prim_not_ok _ (Or.inr (Or.inl ⟨s2, rfl⟩)) _ _ _ _)
                    | vnum n2 =>
                        rw [mergeInto_singleton_truthy tgf k sg _ hw htw] at hrg
                        cases sg with
                        | nil => exact absurd rfl hsg_ne
                        | cons p2 rest2 =>
                            obtain ⟨k2, sv2⟩ := p2
                            cases hmig : mergeInto (.vnum n2) ((k2, sv2) :: rest2) with
                            | error e => rw [hmig] at hrg; exact Except.noConfusion hrg
                            | ok i =>
                                exact absurd hmig
                                  (mergeInto_prim_not_ok _ (Or.inr (Or.inr ⟨n2, rfl⟩)) _ _ _ _)
                  · rw [Bool.not_eq_true] at htw
                    rw [mergeInto_singleton_init tf k sf (by rw [hv]; simp [htv])] at hr
                    rw [mergeInto_singleton_init tgf k sg (by rw [hw]; simp [htw])] at hrg
                    cases hmi : mergeInto (.vobj []) sf with
                    | error e => rw [hmi] at hr; exact Except.noConfusion hr
                    | ok inner =>
                        cases hmig : mergeInto (.vobj []) sg with
                        | error e => rw [hmig] at hrg; exact Except.noConfusion hrg
                        | ok innerg =>
                            rw [hmi] at hr
                            rw [hmig] at hrg
                            simp only [exceptMap_ok, Except.ok.injEq] at hr hrg
                            subst hr
                            subst hrg
                            obtain ⟨hish, hia, hiag⟩ :=
                              ih (.vobj []) (.vobj []) rfl rfl rfl inner innerg hmi hmig
                            refine ⟨?_, ?_, ?_⟩
                            · simp only [shapeOfVal]
                              exact congrArg Shape.node
                                (setField_shape _ _ k inner innerg
                                  (setField_shape tf tgf k (.vobj []) (.vobj []) hff rfl) hish)
                            · simp only [arrFreeVal]
                              exact arrFree_setField _ k inner
                                (arrFree_setField tf k (.vobj []) haf rfl) hia
                            · simp only [arrFreeVal]
                              exact arrFree_setField _ k innerg
                                (arrFree_setField tgf k (.vobj []) hafg rfl) hiag

/-- `split('.')` never yields an empty segment list. -/
theorem splitDot_ne_nil : ∀ (cs : List Char), splitDot cs ≠ [] := by
  intro cs
  cases cs with
  | nil => simp [splitDot]
  | cons c rest =>
      simp only [splitDot]
      cases h : splitDot rest with
      | nil => simp
      | cons seg segs => by_cases hc : c = '.' <;> simp [hc]

/-- The `createNestedObject` chains of one key path across two rows are
`SamePath`-related. -/
theorem nestedChain_samePath :
    ∀ (segs : List String), segs ≠ [] →
    ∀ (a b : JsVal), isScalarLeaf a → isScalarLeaf b →
      SamePath (nestedChain a segs) (nestedChain b segs) := by
  intro segs
  induction segs with
  | nil => intro h; exact absurd rfl h
  | cons k rest ih =>
      intro _ a b ha hb
      cases rest with
      | nil => exact SamePath.leaf (jsTrim k) a b ha hb
      | cons k2 r2 =>
          exact SamePath.node (jsTrim k) _ _ (ih (by simp) a b ha hb)

/-- The converted cell value is always a scalar (string or number). -/
theorem convertValue_scalar (v : String) : isScalarLeaf (convertValue v) := by
  unfold convertValue
  by_cases h : (jsStringToNumber v).isSome = true ∧ v ≠ ""
  · rw [if_pos h]
    exact Or.inr ⟨_, rfl⟩
  · rw [if_neg h]
    exact Or.inl ⟨_, rfl⟩

/-- `createNestedObject` on one header across two rows gives
`SamePath`-related sources. -/
theorem createNestedObject_samePath (key : String) (a b : JsVal)
    (ha : isScalarLeaf a) (hb : isScalarLeaf b) :
    SamePath (createNestedObject key a) (createNestedObject key b) := by
  unfold createNestedObject
  apply nestedChain_samePath _ ?_ a b ha hb
  cases hx : splitDot key.data with
  | nil => exact absurd hx (splitDot_ne_nil key.data)
  | cons s1 rest => simp [hx]

/-- The row loop preserves pairwise shape equality and array-freeness of
the accumulating record across two rows of equal (header-matching) arity. -/
theorem buildRecord_shape_pair :
    ∀ (hs vs vsg : List String) (t tg : JsVal),
      vs.length = hs.length → vsg.length = hs.length →
      arrFreeVal t = true → arrFreeVal tg = true → shapeOfVal t = shapeOfVal tg →
      ∀ (r rg : JsVal),
        (hs.zip vs).foldlM buildField t = .ok r →
        (hs.zip vsg).foldlM buildField tg = .ok rg →
        shapeOfVal r = shapeOfVal rg ∧ arrFreeVal r = true ∧ arrFreeVal rg = true := by
  intro hs
  induction hs with
  | nil =>
      intro vs vsg t tg _ _ hat hatg hsh r rg hr hrg
      simp only [List.zip_nil_left, List.foldlM_nil, pure, Except.pure,
        Except.ok.injEq] at hr hrg
      subst hr
      subst hrg
      exact ⟨hsh, hat, hatg⟩
  | cons h hs1 ih =>
      intro vs vsg t tg hlen hleng hat hatg hsh r rg hr hrg
      cases vs with
      | nil => simp at hlen
      | cons v vs1 =>
          cases vsg with
          | nil => simp at hleng
          | cons w vsg1 =>
              simp only [List.zip_cons_cons, List.foldlM_cons] at hr hrg
              cases hstep : buildField t (h, v) with
              | error e => rw [hstep] at hr; simp at hr
              | ok t1 =>
                  cases hstepg : buildField tg (h, w) with
                  | error e => rw [hstepg] at hrg; simp at hrg
                  | ok tg1 =>
                      rw [hstep] at hr
                      rw [hstepg] at hrg
                      simp only [exceptBind_ok] at hr hrg
                      have hsp := createNestedObject_samePath (jsTrim h)
                        (convertValue (jsTrim v)) (convertValue (jsTrim w))
                        (convertValue_scalar (jsTrim v)) (convertValue_scalar (jsTrim w))
                      obtain ⟨hsh1, ha1, hag1⟩ :=
                        samePath_merge_shape hsp t tg hat hatg hsh t1 tg1 hstep hstepg
                      exact ih vs1 vsg1 t1 tg1 (by simpa using hlen) (by simpa using hleng)
                        ha1 hag1 hsh1 r rg hr hrg

/-- **C7.**  For a fixed header list, every successfully materialized
record has the same nesting skeleton — only leaf values vary between rows
(rows that fail to materialize are dropped and emit no record, so the
invariant is over emitted records).  The concrete example: headers
`name.firstName,name.lastName,age` with row `Rohit,Prasad,35` produce
`{ name: { firstName: "Rohit", lastName: "Prasad" }, age: 35 }`, the two
shared-prefix headers merged into one container. -/
theorem c7_record_shape_invariant :
    (∀ (hs vs vsg : List String) (r rg : JsVal),
        vs.length = hs.length → vsg.length = hs.length →
        buildRecord hs vs = .ok r → buildRecord hs vsg = .ok rg →
        shapeOfVal r = shapeOfVal rg)
    ∧ buildRecord ["name.firstName", "name.lastName", "age"] ["Rohit", "Prasad", "35"]
        = .ok (.vobj [("name", .vobj [("firstName", .vstr "Rohit"),
                                      ("lastName", .vstr "Prasad")]),
                      ("age", .vnum (.finite 35))]) := by
  constructor
  · intro hs vs vsg r rg hlen hleng hr hrg
    exact (buildRecord_shape_pair hs vs vsg (.vobj []) (.vobj [])
      hlen hleng rfl rfl rfl r rg hr hrg).1
  · rfl

/-- Witness for C7: two concrete rows under the same headers produce
shape-equal records. -/
theorem c7_record_shape_invariant_witness :
    shapeOfVal (.vobj [("name", .vobj [("firstName", .vstr "Rohit"),
                                       ("lastName", .vstr "Prasad")]),
                       ("age", .vnum (.finite 35))])
      = shapeOfVal (.vobj [("name", .vobj [("firstName", .vstr "A"),
                                           ("lastName", .vstr "B")]),
                           ("age", .vstr "x")]) :=
  c7_record_shape_invariant.1
    ["name.firstName", "name.lastName", "age"]
    ["Rohit", "Prasad", "35"] ["A", "B", "x"] _ _
    (by decide) (by decide) rfl rfl

end CsvParser
